import Mathlib

/-!
# Verification development for `tnakagawa/ec` (`ec.go`)

Shallow embedding of the Go package `ec`: short-Weierstrass curves over a prime
field with point decoding (`Parse`), the group operation (`Add`), double-and-add
scalar multiplication (`Mul`, `BaseMul`), and the predicates `On` and `Infinite`.

Modelling conventions.
* `*big.Int` values are `Int`; a nil `*big.Int` is `none`.
* A Go run-time panic is an `Except.error` carrying a `Fault`.
* A nil `*Point` / nil `*EC` result is `none` inside `Except.ok`.
* `big.Int.ModSqrt` belongs to the standard library, not to this package; the
  functions that call it take the primitive as the argument `sqrt`.
-/

namespace Ec

/-! ## Run-time faults -/

/-- Go run-time panics that the package can raise. -/
inductive Fault where
  | indexOutOfRange
  | divideByZero
  | nilDereference
  | invalidArgument
  deriving DecidableEq, Repr

deriving instance DecidableEq for Except

/-! ## `math/big` and `encoding/hex` primitives -/

/-- Number of binary digits of `n`, by repeated halving; `fuel` bounds the number
of halvings. -/
def bitLenAux : Nat → Nat → Nat
  | 0, _ => 0
  | fuel + 1, n => if n = 0 then 0 else bitLenAux fuel (n / 2) + 1

/-- `x.BitLen()`: length of the absolute value of `x` in bits; `0` for `x = 0`. -/
def BitLen (x : Int) : Nat :=
  bitLenAux x.natAbs x.natAbs

/-- Number of bytes of `x.Bytes()`, the big-endian absolute value without leading zeros. -/
def byteLen (x : Int) : Nat :=
  (BitLen x + 7) / 8

/-- Big-endian representation of `n` on exactly `len` bytes (high bytes are dropped
when `n` does not fit). -/
def bigEndian (len n : Nat) : List UInt8 :=
  (List.range len).map fun i => UInt8.ofNat (n / 256 ^ (len - 1 - i) % 256)

/-- `x.Bytes()`: big-endian bytes of the absolute value of `x`. -/
def Bytes (x : Int) : List UInt8 :=
  bigEndian (byteLen x) x.natAbs

/-- `new(big.Int).SetBytes(bs)`: the unsigned big-endian value of `bs`. -/
def SetBytes (bs : List UInt8) : Int :=
  Int.ofNat (bs.foldl (fun acc b => acc * 256 + b.toNat) 0)

/-- `new(big.Int).Mod(x, m)`: Euclidean modulus; panics on `m = 0`. -/
def Mod (x m : Int) : Except Fault Int :=
  if m = 0 then .error .divideByZero else .ok (x % m)

/-- Square-and-multiply over the bits of the exponent, least significant first;
`fuel` bounds the number of bits consumed. Computes `b ^ e % m`. -/
def powModAux (m : Nat) : Nat → Nat → Nat → Nat → Nat
  | 0, _, _, acc => acc
  | fuel + 1, b, e, acc =>
    if e = 0 then acc
    else powModAux m fuel (b * b % m) (e / 2) (if e % 2 = 1 then acc * b % m else acc)

/-- The value `b ^ e % m` on naturals. -/
def powMod (b e m : Nat) : Nat :=
  powModAux m e (b % m) e (1 % m)

/-- `new(big.Int).ModInverse(g, n)` for `n ≠ 0`: the inverse of `g` modulo `|n|` in
`[0, |n|)`, or nil when `g` and `n` are not coprime. -/
def ModInverse (g n : Int) : Option Int :=
  if Int.gcd g n = 1 then some (Int.gcdA (g % (n.natAbs : Int)) (n.natAbs : Int) % (n.natAbs : Int))
  else none

/-- `new(big.Int).Exp(x, y, m)`: `x ^ y mod |m|` in `[0, |m|)` for `m ≠ 0`; for
`m = 0` it is `x ^ y`, or `1` when `y ≤ 0`; for `y < 0` and `m ≠ 0` it is the
`|y|`-th power of the inverse of `x`, or nil when `x` has no inverse. -/
def Exp (x y m : Int) : Option Int :=
  if m = 0 then
    if y ≤ 0 then some 1 else some (x ^ y.toNat)
  else if 0 ≤ y then
    some (Int.ofNat (powMod (x % (m.natAbs : Int)).toNat y.toNat m.natAbs))
  else
    match ModInverse x m with
    | none => none
    | some i => some (Int.ofNat (powMod i.toNat y.natAbs m.natAbs))

/-- `x.Bit(i)` as a Boolean: bit `i` of the two's-complement representation. -/
def Bit (x : Int) (i : Nat) : Bool :=
  Int.testBit x i

/-- Value of a hexadecimal digit, either case. -/
def hexVal (c : Char) : Option Nat :=
  if '0' ≤ c ∧ c ≤ '9' then some (c.toNat - '0'.toNat)
  else if 'a' ≤ c ∧ c ≤ 'f' then some (c.toNat - 'a'.toNat + 10)
  else if 'A' ≤ c ∧ c ≤ 'F' then some (c.toNat - 'A'.toNat + 10)
  else none

/-- Value of a string of hexadecimal digits read most significant first, starting
from the accumulator `acc`; `none` on a character that is not a hex digit. -/
def hexDigits : List Char → Nat → Option Nat
  | [], acc => some acc
  | c :: cs, acc =>
    match hexVal c with
    | none => none
    | some d => hexDigits cs (acc * 16 + d)

/-- `new(big.Int).SetString(s, 16)`: an optional sign followed by at least one
hexadecimal digit and nothing else; `none` when the second result is `false`. -/
def SetString (s : String) : Option Int :=
  match s.data with
  | [] => none
  | '+' :: cs => if cs = [] then none else (hexDigits cs 0).map Int.ofNat
  | '-' :: cs => if cs = [] then none else (hexDigits cs 0).map fun n => - Int.ofNat n
  | cs => (hexDigits cs 0).map Int.ofNat

/-- Pairs of hexadecimal digits to bytes; `none` on odd length or on a character
that is not a hex digit. -/
def decodePairs : List Char → Option (List UInt8)
  | [] => some []
  | [_] => none
  | c :: d :: cs =>
    match hexVal c, hexVal d with
    | some h, some l => (decodePairs cs).map fun bs => UInt8.ofNat (h * 16 + l) :: bs
    | _, _ => none

/-- `hex.DecodeString(s)`; `none` when it returns an error. -/
def DecodeString (s : String) : Option (List UInt8) :=
  decodePairs s.data

/-! ## Data model -/

/-- `type Point struct { X, Y *big.Int }`. A nil coordinate is `none`. -/
structure Point where
  X : Option Int
  Y : Option Int
  deriving DecidableEq, Repr

/-- `type EC struct { P, a, b *big.Int; G *Point; N *big.Int }`. -/
structure EC where
  P : Int
  a : Int
  b : Int
  G : Point
  N : Int
  deriving DecidableEq, Repr

/-- The zero-valued `&Point{}`: both coordinates nil. -/
def Point.zero : Point := ⟨none, none⟩

/-- The square-root primitive `new(big.Int).ModSqrt(x, p)` as seen by the package:
it may panic, return nil, or return a value. -/
abbrev SqrtPrim := Int → Int → Except Fault (Option Int)

/-! ## The package functions -/

/-- `func (ec *EC) Infinite(p *Point) bool`. -/
def EC.Infinite (_ec : EC) (p : Point) : Bool :=
  if p.X.isNone || p.Y.isNone then true else false

/-- A nil `*big.Int` operand makes the `math/big` method panic. -/
def deref (x : Option Int) : Except Fault Int :=
  match x with
  | none => .error .nilDereference
  | some v => .ok v

/-- `&Point{new(big.Int).SetBytes(q.X.Bytes()), new(big.Int).SetBytes(q.Y.Bytes())}`. -/
def copyPoint (q : Point) : Except Fault Point := do
  let x ← deref q.X
  let y ← deref q.Y
  pure ⟨some (SetBytes (Bytes x)), some (SetBytes (Bytes y))⟩

/-- `func (ec *EC) Add(p, q *Point) *Point`. -/
def EC.Add (ec : EC) (p q : Point) : Except Fault Point :=
  if ec.Infinite p then copyPoint q
  else if ec.Infinite q then copyPoint p
  else do
    let px ← deref p.X
    let py ← deref p.Y
    let qx ← deref q.X
    let qy ← deref q.Y
    if px = qx ∧ py ≠ qy then pure Point.zero
    else do
      let s ←
        if px = qx ∧ py = qy then do
          let e ← deref (Exp (2 * py) (ec.P - 2) ec.P)
          Mod ((3 * px * px + ec.a) * e) ec.P
        else do
          let e ← deref (Exp (px - qx) (ec.P - 2) ec.P)
          Mod ((py - qy) * e) ec.P
      let rx ← Mod (s * s - (px + qx)) ec.P
      let ry ← Mod (s * (px - rx) - py) ec.P
      pure ⟨some rx, some ry⟩

/-- The loop of `Mul` with `n` iterations left, at bit index `i`. -/
def mulLoop (ec : EC) (x : Int) : Nat → Nat → Point → Point → Except Fault Point
  | 0, _, r, _ => .ok r
  | n + 1, i, r, p =>
    match (if Bit x i then ec.Add r p else .ok r) with
    | .error f => .error f
    | .ok r1 =>
      match ec.Add p p with
      | .error f => .error f
      | .ok p1 => mulLoop ec x n (i + 1) r1 p1

/-- `func (ec *EC) Mul(x *big.Int, p *Point) *Point`. -/
def EC.Mul (ec : EC) (x : Int) (p : Point) : Except Fault Point :=
  mulLoop ec x (BitLen x) 0 Point.zero p

/-- `func (ec *EC) BaseMul(x *big.Int) *Point`. -/
def EC.BaseMul (ec : EC) (x : Int) : Except Fault Point :=
  ec.Mul x ec.G

/-- `func (ec *EC) On(p *Point) bool`. -/
def EC.On (ec : EC) (p : Point) : Except Fault Bool :=
  if ec.Infinite p then pure false
  else do
    let px ← deref p.X
    let py ← deref p.Y
    let y2 ← deref (Exp py 2 ec.P)
    let x3 ← deref (Exp px 3 ec.P)
    let x3axb ← Mod (x3 + ec.a * px + ec.b) ec.P
    pure (decide (y2 = x3axb))

/-- `func (ec *EC) Parse(bs []byte) *Point`; `sqrt` is `big.Int.ModSqrt`. -/
def EC.Parse (sqrt : SqrtPrim) (ec : EC) (bs : List UInt8) : Except Fault (Option Point) :=
  let size := byteLen ec.P
  match bs with
  | [] => .error .indexOutOfRange
  | b0 :: _ =>
    if ((b0 ≠ 0x02 ∧ b0 ≠ 0x03) ∨ bs.length ≠ size + 1) ∧ (b0 ≠ 0x04 ∨ bs.length ≠ size * 2 + 1) then
      pure none
    else
      let x := SetBytes ((bs.drop 1).take size)
      if bs.length = size + 1 then do
        let x3 ← deref (Exp x 3 ec.P)
        let y2 ← Mod (x3 + ec.a * x + ec.b) ec.P
        match ← sqrt y2 ec.P with
        | none => pure none
        | some y =>
          if (b0 = 0x02 ∧ Bit y 0 = true) ∨ (b0 = 0x03 ∧ Bit y 0 = false) then do
            let y1 ← Mod (ec.P - y) ec.P
            pure (some ⟨some x, some y1⟩)
          else
            pure (some ⟨some x, some y⟩)
      else
        pure (some ⟨some x, some (SetBytes (bs.drop (size + 1)))⟩)

/-- `func NewEC(p, a, b, g, n string) *EC`; `sqrt` is `big.Int.ModSqrt`. While `G`
is being decoded the fields `G` and `N` of the receiver are still nil; `Parse`
reads only `P`, `a` and `b`. -/
def NewEC (sqrt : SqrtPrim) (p a b g n : String) : Except Fault (Option EC) :=
  match SetString p with
  | none => pure none
  | some P =>
    match SetString a with
    | none => pure none
    | some A =>
      match SetString b with
      | none => pure none
      | some B =>
        match DecodeString g with
        | none => pure none
        | some bs => do
          match ← EC.Parse sqrt ⟨P, A, B, Point.zero, 0⟩ bs with
          | none => pure none
          | some G =>
            if EC.Infinite ⟨P, A, B, G, 0⟩ G then pure none
            else
              match SetString n with
              | none => pure none
              | some N => pure (some ⟨P, A, B, G, N⟩)

/-! ## The library square root and the two named curves -/

/-- Model of `new(big.Int).ModSqrt(x, p)` from `math/big`, which panics on an even
modulus, returns nil when `x` is not a square modulo `p`, and a root in `[0, p)`
otherwise. For `p ≡ 3 (mod 4)`, the case of both named curves, the root is
`x ^ ((p + 1) / 4) mod p` as in the library; for the other odd moduli the least
root is returned. -/
def ModSqrt : SqrtPrim := fun x p =>
  if p % 2 = 0 then .error .invalidArgument
  else if p % 4 = 3 then
    let r : Int := Int.ofNat (powMod (x % p).toNat ((p + 1) / 4).toNat p.natAbs)
    if r * r % p = x % p then .ok (some r) else .ok none
  else
    .ok (((List.range p.natAbs).find? fun (r : Nat) => decide (Int.ofNat r * Int.ofNat r % p = x % p)).map Int.ofNat)

/-- `var S256K1 = NewEC(...)`: secp256k1. -/
def S256K1 : Except Fault (Option EC) :=
  NewEC ModSqrt
    "FFFFFFFFFFFFFFFFFFFFFFFFFFFFFFFFFFFFFFFFFFFFFFFFFFFFFFFEFFFFFC2F"
    "0000000000000000000000000000000000000000000000000000000000000000"
    "0000000000000000000000000000000000000000000000000000000000000007"
    "0279BE667EF9DCBBAC55A06295CE870B07029BFCDB2DCE28D959F2815B16F81798"
    "FFFFFFFFFFFFFFFFFFFFFFFFFFFFFFFEBAAEDCE6AF48A03BBFD25E8CD0364141"

/-- `var S256R1 = NewEC(...)`: secp256r1. -/
def S256R1 : Except Fault (Option EC) :=
  NewEC ModSqrt
    "FFFFFFFF00000001000000000000000000000000FFFFFFFFFFFFFFFFFFFFFFFF"
    "FFFFFFFF00000001000000000000000000000000FFFFFFFFFFFFFFFFFFFFFFFC"
    "5AC635D8AA3A93E7B3EBBD55769886BC651D06B0CC53B0F63BCE3C3E27D2604B"
    "036B17D1F2E12C4247F8BCE6E563A440F277037D812DEB33A0F4A13945D898C296"
    "FFFFFFFF00000000FFFFFFFFFFFFFFFFBCE6FAADA7179E84F3B9CAC2FC632551"

/-- The value that `S256K1` holds after package initialisation. -/
def curveK1 : EC :=
  ⟨0xFFFFFFFFFFFFFFFFFFFFFFFFFFFFFFFFFFFFFFFFFFFFFFFFFFFFFFFEFFFFFC2F, 0, 7,
    ⟨some 0x79BE667EF9DCBBAC55A06295CE870B07029BFCDB2DCE28D959F2815B16F81798,
      some 0x483ADA7726A3C4655DA4FBFC0E1108A8FD17B448A68554199C47D08FFB10D4B8⟩,
    0xFFFFFFFFFFFFFFFFFFFFFFFFFFFFFFFEBAAEDCE6AF48A03BBFD25E8CD0364141⟩

/-- The value that `S256R1` holds after package initialisation. -/
def curveR1 : EC :=
  ⟨0xFFFFFFFF00000001000000000000000000000000FFFFFFFFFFFFFFFFFFFFFFFF,
    0xFFFFFFFF00000001000000000000000000000000FFFFFFFFFFFFFFFFFFFFFFFC,
    0x5AC635D8AA3A93E7B3EBBD55769886BC651D06B0CC53B0F63BCE3C3E27D2604B,
    ⟨some 0x6B17D1F2E12C4247F8BCE6E563A440F277037D812DEB33A0F4A13945D898C296,
      some 0x4FE342E2FE1A7F9B8EE7EB4A7C0F9E162BCE33576B315ECECBB6406837BF51F5⟩,
    0xFFFFFFFF00000000FFFFFFFFFFFFFFFFBCE6FAADA7179E84F3B9CAC2FC632551⟩

/-! ## Shapes of encoded points -/

/-- An input has compressed shape: prefix `0x02` or `0x03` and length `L + 1`. -/
def compressedShape (ec : EC) (bs : List UInt8) : Prop :=
  (bs.head? = some 0x02 ∨ bs.head? = some 0x03) ∧ bs.length = byteLen ec.P + 1

/-- An input has uncompressed shape: prefix `0x04` and length `2L + 1`. -/
def uncompressedShape (ec : EC) (bs : List UInt8) : Prop :=
  bs.head? = some 0x04 ∧ bs.length = 2 * byteLen ec.P + 1

/-! ## Contract of the square-root primitive -/

/-- One half of the documented contract of `big.Int.ModSqrt` at the modulus `P`, on
arguments in `[0, P)`: when the argument is a square modulo `P`, some root in
`[0, P)` is returned. -/
def ReturnsRoot (sqrt : SqrtPrim) (P : Int) : Prop :=
  ∀ x : Int, 0 ≤ x → x < P → (∃ y : Int, y * y % P = x) →
    ∃ r : Int, sqrt x P = .ok (some r) ∧ 0 ≤ r ∧ r < P ∧ r * r % P = x

/-- The other half of the contract: when the argument is not a square modulo `P`,
nil is returned. -/
def RejectsNonSquare (sqrt : SqrtPrim) (P : Int) : Prop :=
  ∀ x : Int, 0 ≤ x → x < P → (¬ ∃ y : Int, y * y % P = x) → sqrt x P = .ok none

/-! ## Specification-side notions for the group law -/

/-- The slope that `Add` computes for two finite points outside the branch
"equal `X`, different `Y`": the tangent slope when the points are equal, the chord
slope otherwise, with the inverse taken as the `(P - 2)`-th power. -/
def slopeInt (ec : EC) (x1 y1 x2 y2 : Int) : Int :=
  if x1 = x2 ∧ y1 = y2 then (3 * x1 * x1 + ec.a) * ((2 * y1) ^ (ec.P - 2).toNat % ec.P) % ec.P
  else (y1 - y2) * ((x1 - x2) ^ (ec.P - 2).toNat % ec.P) % ec.P

/-- The Weierstrass curve `y^2 = x^3 + a x + b` over `ZMod p` that a curve value
denotes when its modulus is `p`. -/
def EC.curve (ec : EC) (p : Nat) : WeierstrassCurve.Affine (ZMod p) :=
  ⟨0, 0, 0, (ec.a : ZMod p), (ec.b : ZMod p)⟩

/-- The `Point` value that represents an element of the curve group: the point
without coordinates for the identity, the coordinates reduced to `[0, p)` otherwise. -/
def repr {p : Nat} {W : WeierstrassCurve.Affine (ZMod p)} : W.Point → Point
  | .zero => ⟨none, none⟩
  | @WeierstrassCurve.Affine.Point.some _ _ _ x y _ => ⟨some (x.val : Int), some (y.val : Int)⟩

/-! ## Primality certificates -/

/-- Check of a Lucas certificate for `p`: `fs` multiplies to `p - 1`, and the base
`a` has `a ^ (p - 1) = 1` but `a ^ ((p - 1) / q) ≠ 1` modulo `p` for every `q` in `fs`. -/
def lucasCheck (p a : Nat) (fs : List Nat) : Bool :=
  decide (1 < p) && (fs.prod == p - 1) && (powMod a (p - 1) p == 1) &&
    fs.all fun q => powMod a ((p - 1) / q) p != 1

/-- Checks that `n` successive doublings by `Add`, starting from `pt`, each start
from a finite point whose `Y` is not zero. -/
def doublesOK (ec : EC) : Nat → Point → Bool
  | 0, _ => true
  | n + 1, pt =>
    match pt.Y with
    | none => false
    | some y =>
      y != 0 &&
        match ec.Add pt pt with
        | .ok q => doublesOK ec n q
        | .error _ => false

/-- The modulus of secp256k1. -/
def pK1 : Nat := 0xFFFFFFFFFFFFFFFFFFFFFFFFFFFFFFFFFFFFFFFFFFFFFFFFFFFFFFFEFFFFFC2F

/-- The modulus of secp256r1. -/
def pR1 : Nat := 0xFFFFFFFF00000001000000000000000000000000FFFFFFFFFFFFFFFFFFFFFFFF

/-! ## Numeric strings that cannot be parsed -/

/-- A numeric argument string without its optional leading sign. -/
def hexBody : List Char → List Char
  | '+' :: cs => cs
  | '-' :: cs => cs
  | cs => cs

/-- A numeric argument string that, after removal of one optional leading `+` or
`-`, is empty or contains a character that is not a hexadecimal digit. -/
def unparseable (s : String) : Prop :=
  hexBody s.data = [] ∨ ∃ c ∈ hexBody s.data, hexVal c = none

/-- The loop of `Mul` run together with the check of `doublesOK`: it yields the
result of the loop, provided every doubling starts from a finite point whose `Y` is
not zero and no call of `Add` faults. -/
def mulLoopChecked (ec : EC) (x : Int) : Nat → Nat → Point → Point → Option Point
  | 0, _, r, _ => some r
  | n + 1, i, r, p =>
    match p.Y with
    | none => none
    | some y =>
      if y = 0 then none
      else
        match (if Bit x i then ec.Add r p else .ok r) with
        | .error _ => none
        | .ok r1 =>
          match ec.Add p p with
          | .error _ => none
          | .ok p1 => mulLoopChecked ec x n (i + 1) r1 p1

/-! ## Evaluation twins with windowed exponentiation

The functions below repeat `powMod`, `Exp`, `Add` and `mulLoopChecked` with the
exponent consumed four bits at a time. They are proved equal to the originals and
serve only to evaluate `Mul` on the 256-bit curves in fewer reduction steps. -/

/-- Square-and-multiply over base-16 digits of the exponent, least significant
first; `fuel` bounds the number of digits consumed. Computes `acc * b ^ e % m`. -/
def powModWindowAux (m : Nat) : Nat → Nat → Nat → Nat → Nat
  | 0, _, _, acc => acc
  | fuel + 1, b, e, acc =>
    if e = 0 then acc
    else powModWindowAux m fuel (b ^ 16 % m) (e / 16) (acc * b ^ (e % 16) % m)

/-- The value `b ^ e % m`, computed four bits of `e` at a time. -/
def powModWindow (b e m : Nat) : Nat :=
  powModWindowAux m e (b % m) e (1 % m)

/-- The function `Exp` with `powModWindow` in place of `powMod`. -/
def expWindow (x y m : Int) : Option Int :=
  if m = 0 then
    if y ≤ 0 then some 1 else some (x ^ y.toNat)
  else if 0 ≤ y then
    some (Int.ofNat (powModWindow (x % (m.natAbs : Int)).toNat y.toNat m.natAbs))
  else
    match ModInverse x m with
    | none => none
    | some i => some (Int.ofNat (powModWindow i.toNat y.natAbs m.natAbs))

/-- The function `EC.Add` with `expWindow` in place of `Exp`. -/
def addWindow (ec : EC) (p q : Point) : Except Fault Point :=
  if ec.Infinite p then copyPoint q
  else if ec.Infinite q then copyPoint p
  else do
    let px ← deref p.X
    let py ← deref p.Y
    let qx ← deref q.X
    let qy ← deref q.Y
    if px = qx ∧ py ≠ qy then pure Point.zero
    else do
      let s ←
        if px = qx ∧ py = qy then do
          let e ← deref (expWindow (2 * py) (ec.P - 2) ec.P)
          Mod ((3 * px * px + ec.a) * e) ec.P
        else do
          let e ← deref (expWindow (px - qx) (ec.P - 2) ec.P)
          Mod ((py - qy) * e) ec.P
      let rx ← Mod (s * s - (px + qx)) ec.P
      let ry ← Mod (s * (px - rx) - py) ec.P
      pure ⟨some rx, some ry⟩

/-- The function `mulLoopChecked` with `addWindow` in place of `EC.Add`. -/
def mulLoopCheckedWindow (ec : EC) (x : Int) : Nat → Nat → Point → Point → Option Point
  | 0, _, r, _ => some r
  | n + 1, i, r, p =>
    match p.Y with
    | none => none
    | some y =>
      if y = 0 then none
      else
        match (if Bit x i then addWindow ec r p else .ok r) with
        | .error _ => none
        | .ok r1 =>
          match addWindow ec p p with
          | .error _ => none
          | .ok p1 => mulLoopCheckedWindow ec x n (i + 1) r1 p1

/-! ## Evaluation of the named curves -/

theorem S256K1_eq : S256K1 = .ok (some curveK1) := by decide!

theorem S256R1_eq : S256R1 = .ok (some curveR1) := by decide!

/-! ### Modular exponentiation -/

theorem powModAux_eq (m : Nat) : ∀ (fuel b e acc : Nat), e ≤ fuel →
    powModAux m fuel b e acc % m = acc * b ^ e % m := by
  intro fuel
  induction fuel with
  | zero =>
    intro b e acc h
    have : e = 0 := by omega
    subst this
    simp [powModAux]
  | succ n ih =>
    intro b e acc h
    unfold powModAux
    split_ifs with h0 h1
    · subst h0; simp
    · rw [ih _ _ _ (by omega)]
      have he : e = 2 * (e / 2) + 1 := by omega
      conv_rhs => rw [he]
      have h2 : acc * b % m * (b * b % m) ^ (e / 2) ≡ acc * b * (b * b) ^ (e / 2) [MOD m] :=
        (Nat.mod_modEq _ _).mul ((Nat.mod_modEq _ _).pow _)
      have h3 : acc * b * (b * b) ^ (e / 2) = acc * b ^ (2 * (e / 2) + 1) := by
        rw [pow_succ, pow_mul, sq]; ring
      rw [← h3]; exact h2
    · rw [ih _ _ _ (by omega)]
      have he : e = 2 * (e / 2) := by omega
      conv_rhs => rw [he]
      have h2 : acc * (b * b % m) ^ (e / 2) ≡ acc * (b * b) ^ (e / 2) [MOD m] :=
        (Nat.ModEq.refl _).mul ((Nat.mod_modEq _ _).pow _)
      have h3 : acc * (b * b) ^ (e / 2) = acc * b ^ (2 * (e / 2)) := by
        rw [pow_mul, sq]
      rw [← h3]; exact h2

theorem powModAux_lt (m : Nat) (hm : 0 < m) : ∀ (fuel b e acc : Nat), acc < m →
    powModAux m fuel b e acc < m := by
  intro fuel
  induction fuel with
  | zero => intro b e acc h; simpa [powModAux] using h
  | succ n ih =>
    intro b e acc h
    unfold powModAux
    split_ifs with h0 h1
    · exact h
    · exact ih _ _ _ (Nat.mod_lt _ hm)
    · exact ih _ _ _ h

theorem powMod_eq (b e m : Nat) (hm : 0 < m) : powMod b e m = b ^ e % m := by
  unfold powMod
  have h1 := powModAux_eq m e (b % m) e (1 % m) le_rfl
  have h2 := powModAux_lt m hm e (b % m) e (1 % m) (Nat.mod_lt _ hm)
  rw [Nat.mod_eq_of_lt h2] at h1
  rw [h1, Nat.mul_mod, Nat.mod_mod, ← Nat.pow_mod, ← Nat.mul_mod, one_mul]


theorem powModWindowAux_eq (m : Nat) : ∀ (fuel b e acc : Nat), e ≤ fuel →
    powModWindowAux m fuel b e acc % m = acc * b ^ e % m := by
  intro fuel
  induction fuel with
  | zero =>
    intro b e acc h
    have : e = 0 := by omega
    subst this
    simp [powModWindowAux]
  | succ n ih =>
    intro b e acc h
    unfold powModWindowAux
    split_ifs with h0
    · subst h0; simp
    · rw [ih _ _ _ (by omega)]
      have he : e = 16 * (e / 16) + e % 16 := by omega
      conv_rhs => rw [he]
      have h2 : acc * b ^ (e % 16) % m * (b ^ 16 % m) ^ (e / 16)
          ≡ acc * b ^ (e % 16) * (b ^ 16) ^ (e / 16) [MOD m] :=
        (Nat.mod_modEq _ _).mul ((Nat.mod_modEq _ _).pow _)
      have h3 : acc * b ^ (e % 16) * (b ^ 16) ^ (e / 16) = acc * b ^ (16 * (e / 16) + e % 16) := by
        rw [pow_add, pow_mul]; ring
      rw [← h3]; exact h2

theorem powModWindowAux_lt (m : Nat) (hm : 0 < m) : ∀ (fuel b e acc : Nat), acc < m →
    powModWindowAux m fuel b e acc < m := by
  intro fuel
  induction fuel with
  | zero => intro b e acc h; simpa [powModWindowAux] using h
  | succ n ih =>
    intro b e acc h
    unfold powModWindowAux
    split_ifs with h0
    · exact h
    · exact ih _ _ _ (Nat.mod_lt _ hm)

theorem powMod_eq_all (b e m : Nat) : powMod b e m = b ^ e % m := by
  rcases Nat.eq_zero_or_pos m with h | h
  · subst h
    have h1 := powModAux_eq 0 e (b % 0) e (1 % 0) le_rfl
    simpa [powMod, Nat.mod_zero] using h1
  · exact powMod_eq b e m h

theorem powModWindow_eq (b e m : Nat) : powModWindow b e m = powMod b e m := by
  rw [powMod_eq_all]
  unfold powModWindow
  have h1 := powModWindowAux_eq m e (b % m) e (1 % m) le_rfl
  rcases Nat.eq_zero_or_pos m with h | h
  · subst h
    simpa [Nat.mod_zero] using h1
  · have h2 := powModWindowAux_lt m h e (b % m) e (1 % m) (Nat.mod_lt _ h)
    rw [Nat.mod_eq_of_lt h2] at h1
    rw [h1, Nat.mul_mod, Nat.mod_mod, ← Nat.pow_mod, ← Nat.mul_mod, one_mul]

theorem expWindow_eq (x y m : Int) : expWindow x y m = Exp x y m := by
  unfold expWindow Exp
  split_ifs
  · rfl
  · rfl
  · rw [powModWindow_eq]
  · cases ModInverse x m with
    | none => rfl
    | some i => simp only [powModWindow_eq]

theorem addWindow_eq (ec : EC) (p q : Point) : addWindow ec p q = ec.Add p q := by
  simp only [addWindow, EC.Add, expWindow_eq]

theorem mulLoopCheckedWindow_eq (ec : EC) (x : Int) : ∀ (n i : Nat) (r p : Point),
    mulLoopCheckedWindow ec x n i r p = mulLoopChecked ec x n i r p := by
  intro n
  induction n with
  | zero => intro i r p; rfl
  | succ n ih =>
    intro i r p
    unfold mulLoopCheckedWindow mulLoopChecked
    cases p.Y with
    | none => rfl
    | some y =>
      simp only [addWindow_eq]
      split_ifs
      · rfl
      · cases ec.Add r p with
        | error f => rfl
        | ok r1 =>
          cases ec.Add p p with
          | error f => rfl
          | ok p1 => exact ih (i + 1) r1 p1
      · cases ec.Add p p with
        | error f => rfl
        | ok p1 => exact ih (i + 1) r p1

/-! ### The generators have order dividing `N` -/

theorem mulLoopChecked_spec (ec : EC) (x : Int) :
    ∀ (n i : Nat) (r p q : Point), mulLoopChecked ec x n i r p = some q →
      mulLoop ec x n i r p = .ok q ∧ doublesOK ec n p = true := by
  intro n
  induction n with
  | zero =>
    intro i r p q h
    simp only [mulLoopChecked, Option.some.injEq] at h
    subst h
    exact ⟨rfl, rfl⟩
  | succ n ih =>
    intro i r p q h
    unfold mulLoopChecked at h
    unfold mulLoop doublesOK
    cases hy : p.Y with
    | none => rw [hy] at h; simp at h
    | some y =>
      rw [hy] at h
      simp only at h
      by_cases hy0 : y = 0
      · rw [if_pos hy0] at h; simp at h
      · rw [if_neg hy0] at h
        cases hr : (if Bit x i = true then ec.Add r p else Except.ok r) with
        | error f => rw [hr] at h; simp at h
        | ok r1 =>
          rw [hr] at h
          simp only at h
          cases hp : ec.Add p p with
          | error f => rw [hp] at h; simp at h
          | ok p1 =>
            rw [hp] at h
            simp only at h
            obtain ⟨h1, h2⟩ := ih (i + 1) r1 p1 q h
            simp only [h1, h2, Bool.and_true, bne_iff_ne, ne_eq, hy0, not_false_eq_true, and_self]

theorem K1_checked :
    mulLoopChecked curveK1 curveK1.N (BitLen curveK1.N) 0 Point.zero curveK1.G
      = some ⟨none, none⟩ := by
  rw [← mulLoopCheckedWindow_eq]
  decide!

theorem R1_checked :
    mulLoopChecked curveR1 curveR1.N (BitLen curveR1.N) 0 Point.zero curveR1.G
      = some ⟨none, none⟩ := by
  rw [← mulLoopCheckedWindow_eq]
  decide!

theorem K1_mul_N : curveK1.Mul curveK1.N curveK1.G = .ok ⟨none, none⟩ :=
  (mulLoopChecked_spec _ _ _ _ _ _ _ K1_checked).1

theorem R1_mul_N : curveR1.Mul curveR1.N curveR1.G = .ok ⟨none, none⟩ :=
  (mulLoopChecked_spec _ _ _ _ _ _ _ R1_checked).1

theorem K1_doubles : doublesOK curveK1 (BitLen curveK1.N) curveK1.G = true :=
  (mulLoopChecked_spec _ _ _ _ _ _ _ K1_checked).2

theorem R1_doubles : doublesOK curveR1 (BitLen curveR1.N) curveR1.G = true :=
  (mulLoopChecked_spec _ _ _ _ _ _ _ R1_checked).2

theorem K1_On_G : curveK1.On curveK1.G = .ok true := by decide!

theorem R1_On_G : curveR1.On curveR1.G = .ok true := by decide!

/-- C2. Order law: on each named curve, `Mul(N, G)` with the curve's own generator
and order returns the point without coordinates. -/
theorem order_law_named_curves :
    (∃ ec, S256K1 = .ok (some ec) ∧ ec.Mul ec.N ec.G = .ok ⟨none, none⟩) ∧
    (∃ ec, S256R1 = .ok (some ec) ∧ ec.Mul ec.N ec.G = .ok ⟨none, none⟩) :=
  ⟨⟨curveK1, S256K1_eq, K1_mul_N⟩, ⟨curveR1, S256R1_eq, R1_mul_N⟩⟩

/-- C3. Both named curves construct, the decoded generator has `X` equal to the 32
bytes after the prefix of the generator constant, and `On(G)` is true. -/
theorem named_curves_construct :
    (∃ ec bs, S256K1 = .ok (some ec) ∧
      DecodeString "0279BE667EF9DCBBAC55A06295CE870B07029BFCDB2DCE28D959F2815B16F81798" = some bs ∧
      ec.G.X = some (SetBytes ((bs.drop 1).take 32)) ∧ ec.On ec.G = .ok true) ∧
    (∃ ec bs, S256R1 = .ok (some ec) ∧
      DecodeString "036B17D1F2E12C4247F8BCE6E563A440F277037D812DEB33A0F4A13945D898C296" = some bs ∧
      ec.G.X = some (SetBytes ((bs.drop 1).take 32)) ∧ ec.On ec.G = .ok true) :=
  ⟨⟨curveK1, _, S256K1_eq, rfl, by decide!, K1_On_G⟩,
   ⟨curveR1, _, S256R1_eq, rfl, by decide!, R1_On_G⟩⟩

/-- C4 (failing input). `Add(Infinity, Infinity)` dereferences the nil coordinate of
its second operand and panics, on every curve. -/
theorem add_infinity_infinity_panics (ec : EC) :
    ec.Add ⟨none, none⟩ ⟨none, none⟩ = .error .nilDereference := rfl

/-! ## Arithmetic and byte-level lemmas -/

theorem Exp_eq (x y m : Int) (hm : 0 < m) (hy : 0 ≤ y) :
    Exp x y m = some (x ^ y.toNat % m) := by
  have hm0 : m ≠ 0 := by omega
  have habs : ((m.natAbs : Nat) : Int) = m := Int.natAbs_of_nonneg hm.le
  have hpos : 0 < m.natAbs := Int.natAbs_pos.mpr hm0
  simp only [Exp, hm0, if_false, hy, if_true]
  congr 1
  rw [powMod_eq _ _ _ hpos]
  have h1 : ((x % (m.natAbs : Int)).toNat : Int) = x % m := by
    rw [habs]; exact Int.toNat_of_nonneg (Int.emod_nonneg _ hm0)
  show ((((x % (m.natAbs : Int)).toNat ^ y.toNat % m.natAbs : Nat)) : Int) = _
  rw [Int.natCast_mod, Nat.cast_pow, h1, habs]
  exact (Int.ModEq.pow _ (Int.mod_modEq x m))

theorem Mod_eq (x m : Int) (hm : m ≠ 0) : Mod x m = .ok (x % m) := by
  simp [Mod, hm]

theorem bitLenAux_spec : ∀ (fuel n : Nat), n ≤ fuel → n < 2 ^ bitLenAux fuel n := by
  intro fuel
  induction fuel with
  | zero => intro n h; simp [bitLenAux]; omega
  | succ k ih =>
    intro n h
    unfold bitLenAux
    split_ifs with h0
    · subst h0; simp
    · have := ih (n / 2) (by omega)
      rw [pow_succ]; omega

theorem lt_pow_byteLen (x : Int) : x.natAbs < 256 ^ byteLen x := by
  have h := bitLenAux_spec x.natAbs x.natAbs le_rfl
  have h2 : (256 : Nat) ^ byteLen x = 2 ^ (8 * ((BitLen x + 7) / 8)) := by
    rw [pow_mul]; rfl
  rw [h2]
  refine lt_of_lt_of_le h (Nat.pow_le_pow_right (by norm_num) ?_)
  unfold BitLen; omega


theorem toNat_ofNat_byte (k : Nat) : (UInt8.ofNat k).toNat = k % 256 := rfl

theorem bigEndian_succ (len n : Nat) :
    bigEndian (len + 1) n = UInt8.ofNat (n / 256 ^ len % 256) :: bigEndian len n := by
  unfold bigEndian
  rw [List.range_succ_eq_map, List.map_cons, List.map_map]
  congr 1
  apply List.map_congr_left
  intro i _
  simp only [Function.comp]
  have h : len + 1 - 1 - i.succ = len - 1 - i := by omega
  rw [h]

theorem bigEndian_length (len n : Nat) : (bigEndian len n).length = len := by
  simp [bigEndian]

theorem foldl_bigEndian : ∀ (len n acc : Nat),
    (bigEndian len n).foldl (fun acc b => acc * 256 + b.toNat) acc
      = acc * 256 ^ len + n % 256 ^ len := by
  intro len
  induction len with
  | zero => intro n acc; simp [bigEndian, Nat.mod_one]
  | succ k ih =>
    intro n acc
    rw [bigEndian_succ, List.foldl_cons, ih, toNat_ofNat_byte, Nat.mod_pow_succ, Nat.mod_mod]
    ring

theorem SetBytes_bigEndian (len n : Nat) (h : n < 256 ^ len) :
    SetBytes (bigEndian len n) = (n : Int) := by
  unfold SetBytes
  rw [foldl_bigEndian, Nat.mod_eq_of_lt h]
  simp

theorem SetBytes_Bytes (x : Int) : SetBytes (Bytes x) = (x.natAbs : Int) :=
  SetBytes_bigEndian _ _ (lt_pow_byteLen x)

theorem byteLen_pos (x : Int) (h : x ≠ 0) : 0 < byteLen x := by
  have h1 : x.natAbs ≠ 0 := Int.natAbs_ne_zero.mpr h
  unfold byteLen BitLen
  obtain ⟨k, hk⟩ := Nat.exists_eq_succ_of_ne_zero h1
  rw [hk]
  simp only [bitLenAux, Nat.succ_ne_zero, if_false]
  omega

theorem toNat_lt_pow_byteLen (P X : Int) (hX : 0 ≤ X) (hXP : X < P) :
    X.toNat < 256 ^ byteLen P := by
  have hlt := lt_pow_byteLen P
  have h1 : X.toNat < P.natAbs := by omega
  omega

theorem Parse_uncompressed (sqrt : SqrtPrim) (ec : EC) (hP : 0 < ec.P) (bs : List UInt8)
    (h : uncompressedShape ec bs) :
    ec.Parse sqrt bs = .ok (some ⟨some (SetBytes ((bs.drop 1).take (byteLen ec.P))),
      some (SetBytes (bs.drop (byteLen ec.P + 1)))⟩) := by
  obtain ⟨hh, hl⟩ := h
  have hL := byteLen_pos ec.P (by omega)
  cases bs with
  | nil => simp at hh
  | cons b0 t =>
    simp only [List.head?_cons, Option.some.injEq] at hh
    subst hh
    simp only [List.length_cons] at hl
    have h1 : t.length + 1 ≠ byteLen ec.P + 1 := by omega
    have h2 : t.length + 1 = byteLen ec.P * 2 + 1 := by omega
    simp [EC.Parse, h1, h2, pure, Except.pure]
    intro h3; omega


/-- C8. Uncompressed decoding: on a curve with modulus `P > 0` of byte length `L`,
every input of length `2L + 1` with prefix `0x04` decodes to the point whose `X` is
the big-endian value of bytes `1 .. L+1` and whose `Y` is that of bytes
`L+1 .. 2L+1`; in particular `0x04` followed by `X` and `Y` in `[0, P)`, each on `L`
zero-padded big-endian bytes, decodes to `(X, Y)`. -/
theorem parse_uncompressed_roundtrip (sqrt : SqrtPrim) (ec : EC) (hP : 0 < ec.P) :
    (∀ bs : List UInt8, bs.head? = some 0x04 → bs.length = 2 * byteLen ec.P + 1 →
      ec.Parse sqrt bs = .ok (some ⟨some (SetBytes ((bs.drop 1).take (byteLen ec.P))),
        some (SetBytes (bs.drop (byteLen ec.P + 1)))⟩)) ∧
    (∀ X Y : Int, 0 ≤ X → X < ec.P → 0 ≤ Y → Y < ec.P →
      ec.Parse sqrt (0x04 :: (bigEndian (byteLen ec.P) X.toNat ++ bigEndian (byteLen ec.P) Y.toNat))
        = .ok (some ⟨some X, some Y⟩)) := by
  refine ⟨fun bs h1 h2 => Parse_uncompressed sqrt ec hP bs ⟨h1, h2⟩, ?_⟩
  intro X Y hX hXP hY hYP
  have hXn := toNat_lt_pow_byteLen ec.P X hX hXP
  have hYn := toNat_lt_pow_byteLen ec.P Y hY hYP
  rw [Parse_uncompressed sqrt ec hP
    (0x04 :: (bigEndian (byteLen ec.P) X.toNat ++ bigEndian (byteLen ec.P) Y.toNat))
    ⟨rfl, by simp [bigEndian_length]; omega⟩]
  simp only [List.drop_succ_cons, List.drop_zero]
  rw [List.take_left' (bigEndian_length _ _), List.drop_left' (bigEndian_length _ _),
    SetBytes_bigEndian _ _ hXn, SetBytes_bigEndian _ _ hYn,
    Int.toNat_of_nonneg hX, Int.toNat_of_nonneg hY]

theorem parse_uncompressed_roundtrip_witness :
    (0 : Int) < 7 ∧
    EC.Parse ModSqrt ⟨7, 0, 3, ⟨some 1, some 2⟩, 13⟩ [0x04, 0x01, 0x02]
      = .ok (some ⟨some 1, some 2⟩) :=
  ⟨by decide, (parse_uncompressed_roundtrip ModSqrt ⟨7, 0, 3, ⟨some 1, some 2⟩, 13⟩
    (by decide)).1 [0x04, 0x01, 0x02] rfl (by decide)⟩

/-- C5. Inverse law: on a curve with odd modulus `P`, adding `(X, Y)` with
`0 < Y < P` to `(X, (-Y) mod P)` returns the infinity point. Neither primality of
`P` nor the curve equation is needed. -/
theorem add_inverse (ec : EC) (X Y : Int) (hodd : ec.P % 2 = 1) (hY : 0 < Y) (hYP : Y < ec.P) :
    ec.Add ⟨some X, some Y⟩ ⟨some X, some ((-Y) % ec.P)⟩ = .ok ⟨none, none⟩ := by
  have hne : Y ≠ (-Y) % ec.P := by
    intro h
    have h1 : (-Y) % ec.P = ec.P - Y := by
      rw [show -Y = (ec.P - Y) + ec.P * (-1) by ring, Int.add_mul_emod_self_left]
      exact Int.emod_eq_of_lt (by omega) (by omega)
    omega
  simp [EC.Add, EC.Infinite, deref, hne, Point.zero, pure, Except.pure, bind, Except.bind]

theorem add_inverse_witness :
    (7 : Int) % 2 = 1 ∧ (0 : Int) < 2 ∧ (2 : Int) < 7 ∧
    EC.Add ⟨7, 0, 3, ⟨some 1, some 2⟩, 13⟩ ⟨some 1, some 2⟩ ⟨some 1, some ((-2) % 7)⟩
      = .ok ⟨none, none⟩ :=
  ⟨by decide, by decide, by decide,
    add_inverse ⟨7, 0, 3, ⟨some 1, some 2⟩, 13⟩ 1 2 (by decide) (by decide) (by decide)⟩

theorem Parse_compressed (sqrt : SqrtPrim) (ec : EC) (hP : 0 < ec.P) (b0 : UInt8) (t : List UInt8)
    (hb : b0 = 0x02 ∨ b0 = 0x03) (hl : t.length = byteLen ec.P) :
    ec.Parse sqrt (b0 :: t) =
      match sqrt ((SetBytes t ^ 3 % ec.P + ec.a * SetBytes t + ec.b) % ec.P) ec.P with
      | .error f => .error f
      | .ok none => .ok none
      | .ok (some y) =>
        if (b0 = 0x02 ∧ Bit y 0 = true) ∨ (b0 = 0x03 ∧ Bit y 0 = false) then
          .ok (some ⟨some (SetBytes t), some ((ec.P - y) % ec.P)⟩)
        else .ok (some ⟨some (SetBytes t), some y⟩) := by
  have hP0 : ec.P ≠ 0 := by omega
  have hg : ¬ (((b0 ≠ 0x02 ∧ b0 ≠ 0x03) ∨ byteLen ec.P + 1 ≠ byteLen ec.P + 1) ∧
      (b0 ≠ 0x04 ∨ byteLen ec.P + 1 ≠ byteLen ec.P * 2 + 1)) := by
    rintro ⟨h1 | h1, -⟩
    · rcases hb with h | h <;> simp [h] at h1
    · exact h1 rfl
  have ht : (List.drop 1 (b0 :: t)).take (byteLen ec.P) = t := by
    simp [← hl]
  have hlen : (b0 :: t).length = byteLen ec.P + 1 := by simp [hl]
  simp only [EC.Parse, hg, if_false, hlen, if_true, ht, Exp_eq _ _ _ hP (by norm_num : (0:Int) ≤ 3),
    deref, Mod_eq _ _ hP0, bind, Except.bind, pure, Except.pure]
  have h3 : (3 : Int).toNat = 3 := rfl
  rw [h3]
  rcases sqrt ((SetBytes t ^ 3 % ec.P + ec.a * SetBytes t + ec.b) % ec.P) ec.P with f | _ | y
  · rfl
  · rfl
  · simp only

/-- C9. Malformed encodings are rejected: on a curve with modulus `P > 0`, a
non-empty input that has neither the compressed shape (prefix `0x02`/`0x03`, length
`L + 1`) nor the uncompressed shape (prefix `0x04`, length `2L + 1`) decodes to
nil. Conversely the guard lets both shapes through: an uncompressed-shape input
always yields a point, and a compressed-shape input yields nil only when the
square-root primitive itself returned nil. -/
theorem parse_rejects_malformed (sqrt : SqrtPrim) (ec : EC) (hP : 0 < ec.P)
    (bs : List UInt8) (hne : bs ≠ []) :
    (¬ compressedShape ec bs → ¬ uncompressedShape ec bs → ec.Parse sqrt bs = .ok none) ∧
    (uncompressedShape ec bs → ∃ pt, ec.Parse sqrt bs = .ok (some pt)) ∧
    (compressedShape ec bs → ec.Parse sqrt bs = .ok none →
      sqrt ((SetBytes (bs.drop 1) ^ 3 % ec.P + ec.a * SetBytes (bs.drop 1) + ec.b) % ec.P) ec.P
        = .ok none) := by
  refine ⟨?_, fun h => ⟨_, Parse_uncompressed sqrt ec hP bs h⟩, ?_⟩
  · intro hc hu
    cases bs with
    | nil => exact absurd rfl hne
    | cons b0 t =>
      have hg : ((b0 ≠ 0x02 ∧ b0 ≠ 0x03) ∨ (b0 :: t).length ≠ byteLen ec.P + 1) ∧
          (b0 ≠ 0x04 ∨ (b0 :: t).length ≠ byteLen ec.P * 2 + 1) := by
        constructor
        · by_contra h
          push_neg at h
          apply hc
          refine ⟨?_, h.2⟩
          by_cases h2 : b0 = 0x02
          · left; simp [h2]
          · right; simp [h.1 h2]
        · by_contra h
          push_neg at h
          apply hu
          exact ⟨by simp [h.1], by rw [h.2]; ring⟩
      simp only [EC.Parse, hg, and_self, if_true, pure, Except.pure]
  · rintro ⟨hb, hl⟩ hpar
    cases bs with
    | nil => exact absurd rfl hne
    | cons b0 t =>
      simp only [List.head?_cons, Option.some.injEq] at hb
      simp only [List.length_cons, add_left_inj] at hl
      rw [Parse_compressed sqrt ec hP b0 t (hb.imp Eq.symm Eq.symm |>.imp Eq.symm Eq.symm) hl] at hpar
      simp only [List.drop_succ_cons, List.drop_zero]
      rcases hs : sqrt ((SetBytes t ^ 3 % ec.P + ec.a * SetBytes t + ec.b) % ec.P) ec.P with f | _ | y
      · rw [hs] at hpar; simp at hpar
      · rfl
      · rw [hs] at hpar
        simp only at hpar
        split_ifs at hpar <;> simp at hpar

theorem parse_rejects_malformed_witness :
    (0 : Int) < 7 ∧ ([0x05, 0x01] : List UInt8) ≠ [] ∧
    EC.Parse ModSqrt ⟨7, 0, 3, ⟨some 1, some 2⟩, 13⟩ [0x05, 0x01] = .ok none :=
  ⟨by decide, by decide,
    (parse_rejects_malformed ModSqrt ⟨7, 0, 3, ⟨some 1, some 2⟩, 13⟩ (by decide) [0x05, 0x01]
      (by decide)).1 (by simp [compressedShape]) (by simp [uncompressedShape])⟩

/-! ## The model of the library square root meets its contract -/

theorem sq_pow_of_three_mod_four (p : Nat) [Fact p.Prime] (h4 : p % 4 = 3) (y : ZMod p) :
    ((y * y) ^ ((p + 1) / 4)) * ((y * y) ^ ((p + 1) / 4)) = y * y := by
  by_cases hy : y = 0
  · subst hy
    have : (p + 1) / 4 ≠ 0 := by omega
    simp [this]
  · have hf := ZMod.pow_card_sub_one_eq_one hy
    have h1 : (y * y) ^ ((p + 1) / 4) * (y * y) ^ ((p + 1) / 4) = y ^ (p - 1) * y ^ 2 := by
      rw [← pow_add, ← sq, ← pow_mul, ← pow_add]
      congr 1
      omega
    rw [h1, hf, one_mul, sq]

theorem ModSqrt_three_mod_four (p : Nat) (hp : p.Prime) (h4 : p % 4 = 3) (x : Int)
    (hx0 : 0 ≤ x) (hxp : x < p) :
    ModSqrt x p =
      if (x ^ ((p + 1) / 4) % (p : Int)) * (x ^ ((p + 1) / 4) % (p : Int)) % (p : Int) = x
      then .ok (some (x ^ ((p + 1) / 4) % (p : Int))) else .ok none := by
  have hpos : 0 < p := hp.pos
  have hp2 : ((p : Int)) % 2 ≠ 0 := by omega
  have hp4 : ((p : Int)) % 4 = 3 := by omega
  have hxm : x % (p : Int) = x := Int.emod_eq_of_lt hx0 hxp
  have hr : (Int.ofNat (powMod (x % (p : Int)).toNat (((p : Int) + 1) / 4).toNat (p : Int).natAbs))
      = x ^ ((p + 1) / 4) % (p : Int) := by
    rw [hxm, Int.natAbs_ofNat, powMod_eq _ _ _ hpos]
    have h1 : (((p : Int) + 1) / 4).toNat = (p + 1) / 4 := by omega
    rw [h1]
    show (((x.toNat ^ ((p + 1) / 4) % p : Nat)) : Int) = _
    rw [Int.natCast_mod, Nat.cast_pow, Int.toNat_of_nonneg hx0]
  rw [hxm] at hr
  simp only [ModSqrt, hp2, if_false, hp4, if_true, hxm, hr]

theorem root_of_three_mod_four (p : Nat) (hp : p.Prime) (h4 : p % 4 = 3) (x : Int)
    (hx0 : 0 ≤ x) (hxp : x < p) (hex : ∃ y : Int, y * y % p = x) :
    (x ^ ((p + 1) / 4) % (p : Int)) * (x ^ ((p + 1) / 4) % (p : Int)) % (p : Int) = x := by
  haveI : Fact p.Prime := ⟨hp⟩
  have hxm : x % (p : Int) = x := Int.emod_eq_of_lt hx0 hxp
  obtain ⟨y, hy⟩ := hex
  have hz : ((x : Int) : ZMod p) = (y : ZMod p) * (y : ZMod p) := by
    rw [← hy]; simp
  have key := sq_pow_of_three_mod_four p h4 (y : ZMod p)
  rw [← hz] at key
  have : ((x ^ ((p + 1) / 4) % (p : Int) * (x ^ ((p + 1) / 4) % (p : Int)) : Int) : ZMod p)
      = ((x : Int) : ZMod p) := by
    simpa using key
  have h2 := (ZMod.intCast_eq_intCast_iff _ _ _).1 this
  rw [Int.ModEq, hxm] at h2
  exact h2

theorem find_root_some (p : Nat) (x r : Int)
    (h : ((List.range p).find? fun (r : Nat) => decide (Int.ofNat r * Int.ofNat r % (p : Int) = x)).map
      Int.ofNat = some r) : 0 ≤ r ∧ r < p ∧ r * r % (p : Int) = x := by
  rw [Option.map_eq_some'] at h
  obtain ⟨n, hn, rfl⟩ := h
  have h1 := List.find?_some hn
  have h2 := List.mem_of_find?_eq_some hn
  rw [List.mem_range] at h2
  refine ⟨Int.ofNat_nonneg n, by show (n : Int) < p; exact_mod_cast h2, by simpa using h1⟩

theorem find_root_isSome (p : Nat) (hp : 0 < p) (x : Int) (hex : ∃ y : Int, y * y % (p : Int) = x) :
    ∃ r, ((List.range p).find? fun (r : Nat) => decide (Int.ofNat r * Int.ofNat r % (p : Int) = x)).map
      Int.ofNat = some r := by
  obtain ⟨y, hy⟩ := hex
  have hp0 : (p : Int) ≠ 0 := by omega
  have h0 : 0 ≤ y % (p : Int) := Int.emod_nonneg _ hp0
  have h1 : y % (p : Int) < p := Int.emod_lt_of_pos _ (by omega)
  have hmem : (y % (p : Int)).toNat ∈ List.range p := by rw [List.mem_range]; omega
  have hsat : (fun (r : Nat) => decide (Int.ofNat r * Int.ofNat r % (p : Int) = x))
      (y % (p : Int)).toNat = true := by
    simp only [decide_eq_true_eq, Int.ofNat_eq_coe, Int.toNat_of_nonneg h0]
    rw [← hy]
    exact (Int.ModEq.mul (Int.mod_modEq y p) (Int.mod_modEq y p))
  cases hf : (List.range p).find? fun (r : Nat) => decide (Int.ofNat r * Int.ofNat r % (p : Int) = x) with
  | none =>
    rw [List.find?_eq_none] at hf
    exact absurd hsat (hf _ hmem)
  | some n => exact ⟨_, rfl⟩

/-- The model `ModSqrt` returns a root in `[0, p)` of every square, for every odd
prime `p`. -/
theorem ModSqrt_returnsRoot (p : Nat) (hp : p.Prime) (hodd : p % 2 = 1) :
    ReturnsRoot ModSqrt p := by
  intro x hx0 hxp hex
  have hxm : x % (p : Int) = x := Int.emod_eq_of_lt hx0 hxp
  by_cases h4 : p % 4 = 3
  · refine ⟨x ^ ((p + 1) / 4) % (p : Int), ?_, Int.emod_nonneg _ (by have := hp.pos; omega),
      Int.emod_lt_of_pos _ (by have := hp.pos; omega), root_of_three_mod_four p hp h4 x hx0 hxp hex⟩
    rw [ModSqrt_three_mod_four p hp h4 x hx0 hxp,
      if_pos (root_of_three_mod_four p hp h4 x hx0 hxp hex)]
  · obtain ⟨r, hr⟩ := find_root_isSome p hp.pos x hex
    have hp2 : ((p : Int)) % 2 ≠ 0 := by omega
    have hp4 : ¬ ((p : Int)) % 4 = 3 := by omega
    refine ⟨r, ?_, find_root_some p x r hr⟩
    simp only [ModSqrt, hp2, if_false, hp4, hxm, Int.natAbs_ofNat, hr]

/-- The model `ModSqrt` returns nil on every non-square, for every odd prime `p`. -/
theorem ModSqrt_rejectsNonSquare (p : Nat) (hp : p.Prime) (hodd : p % 2 = 1) :
    RejectsNonSquare ModSqrt p := by
  intro x hx0 hxp hex
  have hxm : x % (p : Int) = x := Int.emod_eq_of_lt hx0 hxp
  by_cases h4 : p % 4 = 3
  · rw [ModSqrt_three_mod_four p hp h4 x hx0 hxp, if_neg]
    intro h
    exact hex ⟨_, h⟩
  · have hp2 : ((p : Int)) % 2 ≠ 0 := by omega
    have hp4 : ¬ ((p : Int)) % 4 = 3 := by omega
    simp only [ModSqrt, hp2, if_false, hp4, hxm, Int.natAbs_ofNat]
    cases hf : ((List.range p).find? fun (r : Nat) =>
        decide (Int.ofNat r * Int.ofNat r % (p : Int) = x)).map Int.ofNat with
    | none => rfl
    | some r => exact absurd ⟨r, (find_root_some p x r hf).2.2⟩ hex

/-! ## `On` and compressed decoding -/

theorem On_finite (ec : EC) (hP : 0 < ec.P) (X Y : Int) :
    ec.On ⟨some X, some Y⟩ = .ok (decide (Y ^ 2 % ec.P = (X ^ 3 % ec.P + ec.a * X + ec.b) % ec.P)) := by
  have hP0 : ec.P ≠ 0 := by omega
  have h2 : (2 : Int).toNat = 2 := rfl
  have h3 : (3 : Int).toNat = 3 := rfl
  simp only [EC.On, EC.Infinite, Option.isNone_some, Bool.or_self, Bool.false_eq_true, if_false,
    deref, Exp_eq _ _ _ hP (by norm_num : (0:Int) ≤ 2), Exp_eq _ _ _ hP (by norm_num : (0:Int) ≤ 3),
    Mod_eq _ _ hP0, bind, Except.bind, pure, Except.pure, h2, h3]

theorem neg_sq_emod (P r : Int) : ((P - r) % P) ^ 2 % P = r * r % P := by
  have h : (P - r) % P ≡ -r [ZMOD P] := by
    refine (Int.mod_modEq _ _).trans ?_
    rw [Int.modEq_iff_dvd]
    exact ⟨-1, by ring⟩
  have h2 := h.pow 2
  rw [Int.ModEq] at h2
  rw [h2]; congr 1; ring

theorem curve_rhs_emod (P a b X : Int) :
    (X ^ 3 % P + a * X + b) % P = (X ^ 3 + a * X + b) % P := by
  have h : X ^ 3 % P + a * X + b ≡ X ^ 3 + a * X + b [ZMOD P] :=
    ((Int.mod_modEq _ _).add (Int.ModEq.refl _)).add (Int.ModEq.refl _)
  exact h

/-- C10. Compressed decoding fails exactly when no square root exists: on a curve
with modulus `P > 0` and a square-root primitive meeting its contract at `P` (as
`math/big` does for an odd prime), for every input of compressed shape, with `X`
the big-endian value of the bytes after the prefix, `Parse` returns normally, it
returns nil if and only if `X^3 + aX + b` is not a square modulo `P`, and every
point it returns has that `X` and satisfies `On`. -/
theorem parse_compressed_nil_iff (sqrt : SqrtPrim) (ec : EC) (hP : 0 < ec.P)
    (h1 : ReturnsRoot sqrt ec.P) (h2 : RejectsNonSquare sqrt ec.P)
    (bs : List UInt8) (hs : compressedShape ec bs) :
    (∃ r, ec.Parse sqrt bs = .ok r) ∧
    (ec.Parse sqrt bs = .ok none ↔
      ¬ ∃ y : Int, y * y % ec.P
        = (SetBytes (bs.drop 1) ^ 3 + ec.a * SetBytes (bs.drop 1) + ec.b) % ec.P) ∧
    (∀ pt, ec.Parse sqrt bs = .ok (some pt) →
      pt.X = some (SetBytes (bs.drop 1)) ∧ ec.On pt = .ok true) := by
  obtain ⟨hb, hl⟩ := hs
  cases bs with
  | nil => simp at hl
  | cons b0 t =>
    simp only [List.head?_cons, Option.some.injEq] at hb
    simp only [List.length_cons, add_left_inj] at hl
    have hb2 : b0 = 0x02 ∨ b0 = 0x03 := hb
    simp only [List.drop_succ_cons, List.drop_zero]
    rw [Parse_compressed sqrt ec hP b0 t hb2 hl, ← curve_rhs_emod]
    have hP0 : ec.P ≠ 0 := by omega
    have hy0 := Int.emod_nonneg (SetBytes t ^ 3 % ec.P + ec.a * SetBytes t + ec.b) hP0
    have hy1 := Int.emod_lt_of_pos (SetBytes t ^ 3 % ec.P + ec.a * SetBytes t + ec.b) hP
    by_cases hex : ∃ y : Int, y * y % ec.P = (SetBytes t ^ 3 % ec.P + ec.a * SetBytes t + ec.b) % ec.P
    · obtain ⟨r, hr, hr0, hrP, hrr⟩ := h1 _ hy0 hy1 hex
      rw [hr]
      simp only
      split_ifs with hc
      · refine ⟨⟨_, rfl⟩, ?_, ?_⟩
        · simp [hex]
        · intro pt hpt
          simp only [Except.ok.injEq, Option.some.injEq] at hpt
          subst hpt
          refine ⟨rfl, ?_⟩
          rw [On_finite ec hP, neg_sq_emod, hrr]
          simp
      · refine ⟨⟨_, rfl⟩, ?_, ?_⟩
        · simp [hex]
        · intro pt hpt
          simp only [Except.ok.injEq, Option.some.injEq] at hpt
          subst hpt
          refine ⟨rfl, ?_⟩
          rw [On_finite ec hP, sq, hrr]
          simp
    · rw [h2 _ hy0 hy1 hex]
      simp only
      exact ⟨⟨_, rfl⟩, by simp [hex], by intro pt hpt; simp at hpt⟩

theorem parse_compressed_nil_iff_witness :
    (0 : Int) < 7 ∧ ReturnsRoot ModSqrt (7 : Int) ∧ RejectsNonSquare ModSqrt (7 : Int) ∧
    compressedShape ⟨7, 0, 3, ⟨some 1, some 2⟩, 13⟩ [0x02, 0x01] ∧
    EC.On ⟨7, 0, 3, ⟨some 1, some 2⟩, 13⟩ ⟨some 1, some 2⟩ = .ok true :=
  ⟨by decide, ModSqrt_returnsRoot 7 (by norm_num) (by decide),
    ModSqrt_rejectsNonSquare 7 (by norm_num) (by decide), ⟨by simp, by decide⟩,
    ((parse_compressed_nil_iff ModSqrt ⟨7, 0, 3, ⟨some 1, some 2⟩, 13⟩ (by decide)
      (ModSqrt_returnsRoot 7 (by norm_num) (by decide))
      (ModSqrt_rejectsNonSquare 7 (by norm_num) (by decide)) [0x02, 0x01]
      ⟨by simp, by decide⟩).2.2 ⟨some 1, some 2⟩ (by decide)).2⟩

theorem Bit_zero_iff (r : Int) (hr : 0 ≤ r) : Bit r 0 = true ↔ r % 2 = 1 := by
  obtain ⟨n, rfl⟩ := Int.eq_ofNat_of_zero_le hr
  simp only [Bit, Int.testBit, Nat.testBit_zero, decide_eq_true_eq]
  omega

theorem sq_emod_eq_cases (p : Nat) (hp : p.Prime) (r Y : Int) (hr0 : 0 ≤ r) (hrp : r < p)
    (hY0 : 0 ≤ Y) (hYp : Y < p) (h : r * r % (p : Int) = Y * Y % (p : Int)) :
    r = Y ∨ r + Y = p := by
  have hpi : Prime (p : Int) := Nat.prime_iff_prime_int.mp hp
  have hd : (p : Int) ∣ (Y - r) * (Y + r) := by
    have := (Int.modEq_iff_dvd.mp h)
    have e : Y * Y - r * r = (Y - r) * (Y + r) := by ring
    rwa [e] at this
  rcases hpi.dvd_or_dvd hd with h1 | h1
  · left
    have := Int.eq_zero_of_abs_lt_dvd h1 (by rw [abs_lt]; constructor <;> omega)
    omega
  · by_cases h0 : Y + r = 0
    · left; omega
    · right
      have h2 : (p : Int) ∣ Y + r - p := Dvd.dvd.sub h1 (dvd_refl _)
      have := Int.eq_zero_of_abs_lt_dvd h2 (by rw [abs_lt]; constructor <;> omega)
      omega

/-- C7. Compressed round trip: on a curve with odd prime modulus `P` of byte length
`L`, for every on-curve point `(X, Y)` with coordinates in `[0, P)`, `Parse` applied
to the prefix (`0x02` for even `Y`, `0x03` for odd `Y`) followed by `X` on `L`
zero-padded big-endian bytes returns exactly `(X, Y)`, provided the square-root
primitive returns some root in `[0, P)` whenever one exists. -/
theorem parse_compressed_roundtrip (sqrt : SqrtPrim) (ec : EC)
    (hp : Nat.Prime ec.P.toNat) (hodd : ec.P % 2 = 1) (hroot : ReturnsRoot sqrt ec.P)
    (X Y : Int) (hX : 0 ≤ X) (hXP : X < ec.P) (hY : 0 ≤ Y) (hYP : Y < ec.P)
    (hon : ec.On ⟨some X, some Y⟩ = .ok true) :
    ec.Parse sqrt ((if Y % 2 = 0 then (0x02 : UInt8) else 0x03) ::
        bigEndian (byteLen ec.P) X.toNat) = .ok (some ⟨some X, some Y⟩) := by
  have hP : 0 < ec.P := by
    by_contra h
    have : ec.P.toNat = 0 := Int.toNat_eq_zero.mpr (by omega)
    rw [this] at hp
    exact Nat.not_prime_zero hp
  have hP0 : ec.P ≠ 0 := by omega
  have hPn : ((ec.P.toNat : Nat) : Int) = ec.P := Int.toNat_of_nonneg hP.le
  have hXn := toNat_lt_pow_byteLen ec.P X hX hXP
  have hb : (if Y % 2 = 0 then (0x02 : UInt8) else 0x03) = 0x02 ∨
      (if Y % 2 = 0 then (0x02 : UInt8) else 0x03) = 0x03 := by
    split_ifs <;> simp
  rw [Parse_compressed sqrt ec hP _ _ hb (bigEndian_length _ _),
    SetBytes_bigEndian _ _ hXn, Int.toNat_of_nonneg hX]
  rw [On_finite ec hP] at hon
  simp only [Except.ok.injEq, decide_eq_true_eq] at hon
  have hy0 := Int.emod_nonneg (X ^ 3 % ec.P + ec.a * X + ec.b) hP0
  have hy1 := Int.emod_lt_of_pos (X ^ 3 % ec.P + ec.a * X + ec.b) hP
  obtain ⟨r, hr, hr0, hrP, hrr⟩ := hroot _ hy0 hy1 ⟨Y, by rw [← hon, sq]⟩
  rw [hr]
  simp only
  have hcases : r = Y ∨ r + Y = ec.P := by
    have := sq_emod_eq_cases ec.P.toNat hp r Y hr0 (by omega) hY (by omega)
      (by rw [hPn, hrr, ← hon, sq])
    rwa [hPn] at this
  have hbit := Bit_zero_iff r hr0
  have hmod : ∀ (h : r + Y = ec.P), (ec.P - r) % ec.P = Y := by
    intro h
    have : ec.P - r = Y := by omega
    rw [this]
    exact Int.emod_eq_of_lt hY hYP
  by_cases hev : Y % 2 = 0
  · simp only [hev, if_true]
    rcases hcases with h | h
    · subst h
      have hb0 : ¬ Bit r 0 = true := by rw [hbit]; omega
      simp [hb0]
    · have hb1 : Bit r 0 = true := by rw [hbit]; omega
      simp [hb1, hmod h]
  · simp only [hev, if_false]
    rcases hcases with h | h
    · subst h
      have hb1 : Bit r 0 = true := by rw [hbit]; omega
      simp [hb1]
    · have hb0 : ¬ Bit r 0 = true := by rw [hbit]; omega
      simp [hb0, hmod h]

theorem parse_compressed_roundtrip_witness :
    Nat.Prime (7 : Int).toNat ∧ (7 : Int) % 2 = 1 ∧ ReturnsRoot ModSqrt (7 : Int) ∧
    EC.On ⟨7, 0, 3, ⟨some 1, some 2⟩, 13⟩ ⟨some 1, some 5⟩ = .ok true ∧
    EC.Parse ModSqrt ⟨7, 0, 3, ⟨some 1, some 2⟩, 13⟩ [0x03, 0x01] = .ok (some ⟨some 1, some 5⟩) :=
  ⟨by show Nat.Prime 7; norm_num, by decide, ModSqrt_returnsRoot 7 (by norm_num) (by decide), by decide,
    parse_compressed_roundtrip ModSqrt ⟨7, 0, 3, ⟨some 1, some 2⟩, 13⟩ (by show Nat.Prime 7; norm_num) (by decide)
      (ModSqrt_returnsRoot 7 (by norm_num) (by decide)) 1 5 (by decide) (by decide) (by decide)
      (by decide) (by decide)⟩

/-- C6 (failing input). On the curve `y^2 = x^3 + 1` over the prime field of order 7
(discriminant `27 ≠ 0`), the point `(3, 0)` satisfies `On`, yet `Add` of this point
with itself returns `(1, 0)`, which is not the infinity point and does not satisfy
`On`: the doubling branch inverts `2·Y = 0` to `0` by Fermat exponentiation where
the group law returns infinity. -/
theorem add_double_of_order_two_leaves_curve :
    EC.On ⟨7, 0, 1, ⟨some 3, some 0⟩, 2⟩ ⟨some 3, some 0⟩ = .ok true ∧
    EC.Add ⟨7, 0, 1, ⟨some 3, some 0⟩, 2⟩ ⟨some 3, some 0⟩ ⟨some 3, some 0⟩
      = .ok ⟨some 1, some 0⟩ ∧
    EC.On ⟨7, 0, 1, ⟨some 3, some 0⟩, 2⟩ ⟨some 1, some 0⟩ = .ok false := by
  decide

/-! ## `Add` on finite points -/

theorem copyPoint_finite (x y : Int) (hx : 0 ≤ x) (hy : 0 ≤ y) :
    copyPoint ⟨some x, some y⟩ = .ok ⟨some x, some y⟩ := by
  simp only [copyPoint, deref, bind, Except.bind, pure, Except.pure, SetBytes_Bytes,
    Int.natAbs_of_nonneg hx, Int.natAbs_of_nonneg hy]

theorem Add_finite (ec : EC) (hP : 2 ≤ ec.P) (x1 y1 x2 y2 : Int) :
    ec.Add ⟨some x1, some y1⟩ ⟨some x2, some y2⟩ =
      if x1 = x2 ∧ y1 ≠ y2 then .ok ⟨none, none⟩
      else .ok ⟨some ((slopeInt ec x1 y1 x2 y2 * slopeInt ec x1 y1 x2 y2 - (x1 + x2)) % ec.P),
        some ((slopeInt ec x1 y1 x2 y2 *
          (x1 - (slopeInt ec x1 y1 x2 y2 * slopeInt ec x1 y1 x2 y2 - (x1 + x2)) % ec.P) - y1) % ec.P)⟩ := by
  have hP0 : ec.P ≠ 0 := by omega
  have hP1 : 0 < ec.P := by omega
  have he : (0 : Int) ≤ ec.P - 2 := by omega
  by_cases h1 : x1 = x2 ∧ y1 ≠ y2
  · simp [EC.Add, EC.Infinite, deref, h1, Point.zero, bind, Except.bind, pure, Except.pure]
  · rw [if_neg h1]
    by_cases h2 : x1 = x2 ∧ y1 = y2
    · obtain ⟨rfl, rfl⟩ := h2
      simp [EC.Add, EC.Infinite, deref, bind, Except.bind, pure, Except.pure,
        Exp_eq _ _ _ hP1 he, Mod_eq _ _ hP0, slopeInt]
    · simp only [EC.Add, EC.Infinite, Option.isNone_some, Bool.or_self, Bool.false_eq_true,
        if_false, deref, bind, Except.bind, pure, Except.pure, h1, h2,
        Exp_eq _ _ _ hP1 he, Mod_eq _ _ hP0, slopeInt]

open WeierstrassCurve.Affine

/-! ## `Add` against the group law of the curve -/

theorem emod_eq_val {p : Nat} [NeZero p] (E : Int) (z : ZMod p) (h : (E : ZMod p) = z) :
    E % (p : Int) = (z.val : Int) := by
  rw [← h, ZMod.val_intCast]

theorem pow_sub_two {p : Nat} [Fact p.Prime] (hp2 : 2 < p) (z : ZMod p) :
    z ^ ((p : Int) - 2).toNat = z⁻¹ := by
  have h1 : ((p : Int) - 2).toNat = p - 2 := by omega
  rw [h1]
  by_cases hz : z = 0
  · rw [hz, inv_zero, zero_pow (by omega)]
  · apply eq_inv_of_mul_eq_one_left
    rw [← pow_succ]
    have h2 : p - 2 + 1 = p - 1 := by omega
    rw [h2]
    exact ZMod.pow_card_sub_one_eq_one hz

theorem slopeInt_cast {p : Nat} [Fact p.Prime] (hp2 : 2 < p) (ec : EC) (hP : ec.P = p)
    (x1 y1 x2 y2 : Int) :
    ((slopeInt ec x1 y1 x2 y2 : Int) : ZMod p) =
      if x1 = x2 ∧ y1 = y2 then
        (3 * (x1 : ZMod p) * x1 + (ec.a : ZMod p)) * (2 * (y1 : ZMod p))⁻¹
      else ((y1 : ZMod p) - y2) * ((x1 : ZMod p) - x2)⁻¹ := by
  unfold slopeInt
  rw [hP]
  split_ifs with h
  · rw [ZMod.intCast_mod]
    push_cast
    rw [pow_sub_two hp2]
  · rw [ZMod.intCast_mod]
    push_cast
    rw [pow_sub_two hp2]

theorem repr_some {p : Nat} {W : WeierstrassCurve.Affine (ZMod p)} {x y : ZMod p}
    (h : W.Nonsingular x y) : repr (Point.some h) = ⟨some (x.val : Int), some (y.val : Int)⟩ := rfl

theorem repr_zero {p : Nat} {W : WeierstrassCurve.Affine (ZMod p)} :
    repr (0 : W.Point) = ⟨none, none⟩ := rfl

theorem Add_some_some {p : Nat} [Fact p.Prime] (hp2 : 2 < p) (ec : EC) (hP : ec.P = p)
    {x₁ y₁ x₂ y₂ : ZMod p} (h₁ : (ec.curve p).Nonsingular x₁ y₁)
    (h₂ : (ec.curve p).Nonsingular x₂ y₂)
    (hxy : x₁ = x₂ → y₁ ≠ (ec.curve p).negY x₂ y₂) :
    ec.Add ⟨some (x₁.val : Int), some (y₁.val : Int)⟩ ⟨some (x₂.val : Int), some (y₂.val : Int)⟩
      = .ok ⟨some (((ec.curve p).addX x₁ x₂ ((ec.curve p).slope x₁ x₂ y₁ y₂)).val : Int),
          some (((ec.curve p).addY x₁ x₂ y₁ ((ec.curve p).slope x₁ x₂ y₁ y₂)).val : Int)⟩ := by
  have hP2 : 2 ≤ ec.P := by omega
  have hinj : ∀ a b : ZMod p, ((a.val : Int) = (b.val : Int)) ↔ a = b := by
    intro a b
    rw [Nat.cast_inj]
    exact (ZMod.val_injective p).eq_iff
  have hc : ∀ a : ZMod p, (((a.val : Nat) : Int) : ZMod p) = a := by
    intro a
    rw [Int.cast_natCast, ZMod.natCast_zmod_val]
  have hcond : ¬ ((x₁.val : Int) = (x₂.val : Int) ∧ (y₁.val : Int) ≠ (y₂.val : Int)) := by
    rintro ⟨hx, hy⟩
    rw [hinj] at hx
    rw [Ne, hinj] at hy
    rcases Y_eq_of_X_eq h₁.1 h₂.1 hx with h | h
    · exact hy h
    · exact hxy hx h
  rw [Add_finite ec hP2, if_neg hcond]
  have hs : ((slopeInt ec x₁.val y₁.val x₂.val y₂.val : Int) : ZMod p)
      = (ec.curve p).slope x₁ x₂ y₁ y₂ := by
    rw [slopeInt_cast hp2 ec hP]
    simp only [hinj, hc]
    by_cases hx : x₁ = x₂
    · have hy : y₁ = y₂ := Y_eq_of_Y_ne h₁.1 h₂.1 hx (hxy hx)
      rw [if_pos ⟨hx, hy⟩, slope_of_Y_ne hx (hxy hx)]
      simp only [EC.curve, negY]
      rw [div_eq_mul_inv]
      congr 2 <;> ring
    · rw [if_neg (fun h => hx h.1), slope_of_X_ne hx, div_eq_mul_inv]
  have hX : (slopeInt ec x₁.val y₁.val x₂.val y₂.val * slopeInt ec x₁.val y₁.val x₂.val y₂.val
      - ((x₁.val : Int) + x₂.val)) % ec.P
      = (((ec.curve p).addX x₁ x₂ ((ec.curve p).slope x₁ x₂ y₁ y₂)).val : Int) := by
    rw [hP]
    apply emod_eq_val
    push_cast
    rw [hs]
    simp only [hc, ZMod.natCast_zmod_val, EC.curve, addX]
    ring
  rw [hX]
  have hY : (slopeInt ec x₁.val y₁.val x₂.val y₂.val *
      ((x₁.val : Int) - (((ec.curve p).addX x₁ x₂ ((ec.curve p).slope x₁ x₂ y₁ y₂)).val : Int))
        - y₁.val) % ec.P
      = (((ec.curve p).addY x₁ x₂ y₁ ((ec.curve p).slope x₁ x₂ y₁ y₂)).val : Int) := by
    rw [hP]
    apply emod_eq_val
    push_cast
    rw [hs]
    simp only [hc, ZMod.natCast_zmod_val, EC.curve, addY, negAddY, negY, addX]
    ring
  rw [hY]

theorem Add_repr {p : Nat} [Fact p.Prime] (hp2 : 2 < p) (ec : EC) (hP : ec.P = p)
    (Q R : (ec.curve p).Point) (hne : Q ≠ 0 ∨ R ≠ 0) (hd : Q = R → Q + Q ≠ 0) :
    ec.Add (repr Q) (repr R) = .ok (repr (Q + R)) := by
  rcases Q with _ | ⟨h₁⟩
  · rcases R with _ | ⟨h₂⟩
    · rcases hne with h | h <;> exact absurd rfl h
    · rw [Point.zero_def, zero_add, repr_zero, repr_some]
      simp only [EC.Add, EC.Infinite, Option.isNone_none, Bool.or_self, if_true]
      exact copyPoint_finite _ _ (Int.ofNat_nonneg _) (Int.ofNat_nonneg _)
  · rcases R with _ | ⟨h₂⟩
    · rw [Point.zero_def, add_zero, repr_zero, repr_some]
      simp only [EC.Add, EC.Infinite, Option.isNone_none, Option.isNone_some, Bool.or_self,
        Bool.false_eq_true, if_false, if_true]
      exact copyPoint_finite _ _ (Int.ofNat_nonneg _) (Int.ofNat_nonneg _)
    · rename_i x₁ y₁ x₂ y₂
      by_cases hxy : x₁ = x₂ → y₁ ≠ (ec.curve p).negY x₂ y₂
      · rw [Point.add_of_imp hxy, repr_some, repr_some, repr_some]
        exact Add_some_some hp2 ec hP h₁ h₂ hxy
      · push_neg at hxy
        obtain ⟨hx, hy⟩ := hxy
        rw [Point.add_of_Y_eq hx hy, repr_zero, repr_some, repr_some]
        have hP2 : 2 ≤ ec.P := by omega
        rw [Add_finite ec hP2, if_pos]
        refine ⟨by rw [hx], ?_⟩
        intro hyy
        have hyy' : y₁ = y₂ := by
          have := Nat.cast_injective (R := Int) hyy
          exact ZMod.val_injective p this
        subst hx hyy'
        exact hd rfl (Point.add_of_Y_eq rfl hy)

/-! ## `Mul` against scalar multiplication in the curve group -/

theorem Bit_natCast (k i : Nat) : Bit (k : Int) i = decide (k / 2 ^ i % 2 = 1) := by
  simp only [Bit, Int.testBit, Nat.testBit_to_div_mod]

theorem mulLoop_repr {p : Nat} [Fact p.Prime] (hp2 : 2 < p) (ec : EC) (hP : ec.P = p) (k : Nat) :
    ∀ (n i : Nat) (R Q : (ec.curve p).Point), (∀ j, j ≤ n → 2 ^ j • Q ≠ 0) →
      mulLoop ec (k : Int) n i (repr R) (repr Q) = .ok (repr (R + (k / 2 ^ i % 2 ^ n) • Q)) := by
  intro n
  induction n with
  | zero =>
    intro i R Q _
    rw [pow_zero, Nat.mod_one, zero_nsmul, add_zero]
    rfl
  | succ n ih =>
    intro i R Q hQ
    have hQ0 : Q ≠ 0 := by simpa using hQ 0 (Nat.zero_le _)
    have hQ1 : Q + Q ≠ 0 := by
      have := hQ 1 (by omega)
      rwa [pow_one, two_nsmul] at this
    have hstep : k / 2 ^ i % 2 ^ (n + 1) = k / 2 ^ i % 2 + 2 * (k / 2 ^ (i + 1) % 2 ^ n) := by
      rw [pow_succ' 2 n, Nat.mod_mul, pow_succ 2 i, Nat.div_div_eq_div_mul]
    have hrec : ∀ j, j ≤ n → 2 ^ j • (Q + Q) ≠ 0 := by
      intro j hj
      have := hQ (j + 1) (by omega)
      rwa [pow_succ, mul_smul, two_nsmul] at this
    have hdbl := Add_repr hp2 ec hP Q Q (Or.inl hQ0) (fun _ => hQ1)
    unfold mulLoop
    rw [Bit_natCast]
    by_cases hb : k / 2 ^ i % 2 = 1
    · have hadd := Add_repr hp2 ec hP R Q (Or.inr hQ0) (fun h => by rw [h]; exact hQ1)
      simp only [hb, decide_True, if_true, hadd, hdbl]
      rw [ih (i + 1) (R + Q) (Q + Q) hrec, hstep, hb, add_smul, mul_comm 2, mul_smul, two_nsmul,
        one_smul, add_assoc]
    · have hb0 : k / 2 ^ i % 2 = 0 := by omega
      simp only [hb, decide_False, Bool.false_eq_true, if_false, hdbl]
      rw [ih (i + 1) R (Q + Q) hrec, hstep, hb0, zero_add, mul_comm 2, mul_smul, two_nsmul]

theorem Mul_repr {p : Nat} [Fact p.Prime] (hp2 : 2 < p) (ec : EC) (hP : ec.P = p) (k : Nat)
    (Q : (ec.curve p).Point) (hQ : ∀ j, j ≤ BitLen (k : Int) → 2 ^ j • Q ≠ 0) :
    ec.Mul (k : Int) (repr Q) = .ok (repr (k • Q)) := by
  have h := mulLoop_repr hp2 ec hP k (BitLen (k : Int)) 0 0 Q hQ
  have hk : k < 2 ^ BitLen (k : Int) := by
    have := bitLenAux_spec k k le_rfl
    simpa [BitLen] using this
  rw [pow_zero, Nat.div_one, Nat.mod_eq_of_lt hk, zero_add] at h
  exact h

theorem two_pow_smul_ne_zero {G : Type*} [AddGroup G] (Q : G) (hQ : Q ≠ 0)
    (hodd : Odd (addOrderOf Q)) (j : Nat) : 2 ^ j • Q ≠ 0 := by
  intro h
  have hdvd : addOrderOf Q ∣ 2 ^ j := addOrderOf_dvd_of_nsmul_eq_zero h
  have hcop : Nat.Coprime (addOrderOf Q) (2 ^ j) :=
    Nat.Coprime.pow_right j (Nat.coprime_two_right.mpr hodd)
  have h1 : addOrderOf Q = 1 := Nat.Coprime.eq_one_of_dvd hcop hdvd
  exact hQ (AddMonoid.addOrderOf_eq_one_iff.mp h1)

/-! ## Primality of the two moduli -/

theorem prime_of_lucasCheck (p a : Nat) (fs : List Nat) (h : lucasCheck p a fs = true)
    (hfs : ∀ q ∈ fs, Nat.Prime q) : Nat.Prime p := by
  simp only [lucasCheck, Bool.and_eq_true, decide_eq_true_eq, beq_iff_eq, List.all_eq_true,
    bne_iff_ne, ne_eq] at h
  obtain ⟨⟨⟨hp1, hprod⟩, ha⟩, hq⟩ := h
  have hp0 : 0 < p := by omega
  have hcast : ∀ e : Nat, ((a : ZMod p) ^ e = 1) ↔ powMod a e p = 1 := by
    intro e
    rw [powMod_eq _ _ _ hp0]
    have h1 : ((a : ZMod p) ^ e = 1) ↔ (((a ^ e : Nat) : ZMod p) = ((1 : Nat) : ZMod p)) := by
      push_cast; rfl
    rw [h1, ZMod.natCast_eq_natCast_iff', Nat.mod_eq_of_lt hp1]
  refine lucas_primality p (a : ZMod p) ((hcast _).2 ha) ?_
  intro q hqp hqd
  rw [← hprod] at hqd
  obtain ⟨r, hr, hqr⟩ := (Prime.dvd_prod_iff (Nat.prime_iff.mp hqp)).1 hqd
  have hqr' : q = r := (Nat.prime_dvd_prime_iff_eq hqp (hfs r hr)).1 hqr
  subst hqr'
  rw [Ne, hcast]
  exact hq q hr

/-! ## Points that satisfy `On` are elements of the curve group -/

theorem equation_of_On {p : Nat} [Fact p.Prime] (ec : EC) (hP : ec.P = p) (X Y : Int)
    (hon : ec.On ⟨some X, some Y⟩ = .ok true) :
    (Y : ZMod p) ^ 2 = (X : ZMod p) ^ 3 + (ec.a : ZMod p) * X + (ec.b : ZMod p) := by
  have hpos : 0 < ec.P := by rw [hP]; exact_mod_cast (Fact.out : p.Prime).pos
  rw [On_finite ec hpos] at hon
  simp only [Except.ok.injEq, decide_eq_true_eq] at hon
  rw [curve_rhs_emod, hP] at hon
  have := (ZMod.intCast_eq_intCast_iff _ _ p).2 hon
  exact_mod_cast this

theorem nonsingular_of_On {p : Nat} [Fact p.Prime] (hp2 : 2 < p) (ec : EC) (hP : ec.P = p)
    (hΔ : (4 * ec.a ^ 3 + 27 * ec.b ^ 2) % ec.P ≠ 0) (X Y : Int)
    (hon : ec.On ⟨some X, some Y⟩ = .ok true) :
    (ec.curve p).Nonsingular (X : ZMod p) (Y : ZMod p) := by
  have heq := equation_of_On ec hP X Y hon
  have hΔ' : 4 * (ec.a : ZMod p) ^ 3 + 27 * (ec.b : ZMod p) ^ 2 ≠ 0 := by
    intro h
    apply hΔ
    rw [hP]
    have h2 : ((4 * ec.a ^ 3 + 27 * ec.b ^ 2 : Int) : ZMod p) = 0 := by push_cast; exact h
    exact Int.emod_eq_zero_of_dvd ((ZMod.intCast_zmod_eq_zero_iff_dvd _ p).1 h2)
  have h2 : (2 : ZMod p) ≠ 0 := by
    intro h
    have h3 : ((2 : Nat) : ZMod p) = 0 := by exact_mod_cast h
    rw [ZMod.natCast_zmod_eq_zero_iff_dvd] at h3
    exact absurd (Nat.le_of_dvd (by norm_num) h3) (by omega)
  rw [nonsingular_iff, equation_iff]
  simp only [EC.curve, zero_mul, add_zero, mul_zero, sub_zero]
  refine ⟨by linear_combination heq, ?_⟩
  by_contra hcon
  push_neg at hcon
  obtain ⟨h3, h4⟩ := hcon
  have hy : (Y : ZMod p) = 0 := by
    have : (2 : ZMod p) * Y = 0 := by linear_combination h4
    rcases mul_eq_zero.mp this with h | h
    · exact absurd h h2
    · exact h
  rw [hy] at heq
  apply hΔ'
  linear_combination (18 * (ec.a : ZMod p) * X - 27 * ec.b) * heq -
    (6 * (ec.a : ZMod p) * X ^ 2 - 9 * ec.b * X + 4 * (ec.a : ZMod p) ^ 2) * h3

/-! ### Lucas certificates -/

theorem prime_cert_1087 : Nat.Prime 1087 :=
  prime_of_lucasCheck 1087 3 [2, 3, 181] (by decide!) (by
    intro q hq
    simp only [List.mem_cons, List.mem_singleton, List.not_mem_nil, or_false] at hq
    rcases hq with rfl | rfl | rfl
    · exact (by norm_num)
    · exact (by norm_num)
    · exact (by norm_num))

theorem prime_cert_1373 : Nat.Prime 1373 :=
  prime_of_lucasCheck 1373 2 [2, 2, 7, 7, 7] (by decide!) (by
    intro q hq
    simp only [List.mem_cons, List.mem_singleton, List.not_mem_nil, or_false] at hq
    rcases hq with rfl | rfl | rfl | rfl | rfl
    · exact (by norm_num)
    · exact (by norm_num)
    · exact (by norm_num)
    · exact (by norm_num)
    · exact (by norm_num))

theorem prime_cert_1531 : Nat.Prime 1531 :=
  prime_of_lucasCheck 1531 2 [2, 3, 3, 5, 17] (by decide!) (by
    intro q hq
    simp only [List.mem_cons, List.mem_singleton, List.not_mem_nil, or_false] at hq
    rcases hq with rfl | rfl | rfl | rfl | rfl
    · exact (by norm_num)
    · exact (by norm_num)
    · exact (by norm_num)
    · exact (by norm_num)
    · exact (by norm_num))

theorem prime_cert_1627 : Nat.Prime 1627 :=
  prime_of_lucasCheck 1627 3 [2, 3, 271] (by decide!) (by
    intro q hq
    simp only [List.mem_cons, List.mem_singleton, List.not_mem_nil, or_false] at hq
    rcases hq with rfl | rfl | rfl
    · exact (by norm_num)
    · exact (by norm_num)
    · exact (by norm_num))

theorem prime_cert_2411 : Nat.Prime 2411 :=
  prime_of_lucasCheck 2411 6 [2, 5, 241] (by decide!) (by
    intro q hq
    simp only [List.mem_cons, List.mem_singleton, List.not_mem_nil, or_false] at hq
    rcases hq with rfl | rfl | rfl
    · exact (by norm_num)
    · exact (by norm_num)
    · exact (by norm_num))

theorem prime_cert_2621 : Nat.Prime 2621 :=
  prime_of_lucasCheck 2621 2 [2, 2, 5, 131] (by decide!) (by
    intro q hq
    simp only [List.mem_cons, List.mem_singleton, List.not_mem_nil, or_false] at hq
    rcases hq with rfl | rfl | rfl | rfl
    · exact (by norm_num)
    · exact (by norm_num)
    · exact (by norm_num)
    · exact (by norm_num))

theorem prime_cert_2657 : Nat.Prime 2657 :=
  prime_of_lucasCheck 2657 3 [2, 2, 2, 2, 2, 83] (by decide!) (by
    intro q hq
    simp only [List.mem_cons, List.mem_singleton, List.not_mem_nil, or_false] at hq
    rcases hq with rfl | rfl | rfl | rfl | rfl | rfl
    · exact (by norm_num)
    · exact (by norm_num)
    · exact (by norm_num)
    · exact (by norm_num)
    · exact (by norm_num)
    · exact (by norm_num))

theorem prime_cert_3677 : Nat.Prime 3677 :=
  prime_of_lucasCheck 3677 2 [2, 2, 919] (by decide!) (by
    intro q hq
    simp only [List.mem_cons, List.mem_singleton, List.not_mem_nil, or_false] at hq
    rcases hq with rfl | rfl | rfl
    · exact (by norm_num)
    · exact (by norm_num)
    · exact (by norm_num))

theorem prime_cert_3769 : Nat.Prime 3769 :=
  prime_of_lucasCheck 3769 7 [2, 2, 2, 3, 157] (by decide!) (by
    intro q hq
    simp only [List.mem_cons, List.mem_singleton, List.not_mem_nil, or_false] at hq
    rcases hq with rfl | rfl | rfl | rfl | rfl
    · exact (by norm_num)
    · exact (by norm_num)
    · exact (by norm_num)
    · exact (by norm_num)
    · exact (by norm_num))

theorem prime_cert_4349 : Nat.Prime 4349 :=
  prime_of_lucasCheck 4349 2 [2, 2, 1087] (by decide!) (by
    intro q hq
    simp only [List.mem_cons, List.mem_singleton, List.not_mem_nil, or_false] at hq
    rcases hq with rfl | rfl | rfl
    · exact (by norm_num)
    · exact (by norm_num)
    · exact prime_cert_1087)

theorem prime_cert_4423 : Nat.Prime 4423 :=
  prime_of_lucasCheck 4423 3 [2, 3, 11, 67] (by decide!) (by
    intro q hq
    simp only [List.mem_cons, List.mem_singleton, List.not_mem_nil, or_false] at hq
    rcases hq with rfl | rfl | rfl | rfl
    · exact (by norm_num)
    · exact (by norm_num)
    · exact (by norm_num)
    · exact (by norm_num))

theorem prime_cert_5323 : Nat.Prime 5323 :=
  prime_of_lucasCheck 5323 5 [2, 3, 887] (by decide!) (by
    intro q hq
    simp only [List.mem_cons, List.mem_singleton, List.not_mem_nil, or_false] at hq
    rcases hq with rfl | rfl | rfl
    · exact (by norm_num)
    · exact (by norm_num)
    · exact (by norm_num))

theorem prime_cert_7723 : Nat.Prime 7723 :=
  prime_of_lucasCheck 7723 3 [2, 3, 3, 3, 11, 13] (by decide!) (by
    intro q hq
    simp only [List.mem_cons, List.mem_singleton, List.not_mem_nil, or_false] at hq
    rcases hq with rfl | rfl | rfl | rfl | rfl | rfl
    · exact (by norm_num)
    · exact (by norm_num)
    · exact (by norm_num)
    · exact (by norm_num)
    · exact (by norm_num)
    · exact (by norm_num))

theorem prime_cert_13441 : Nat.Prime 13441 :=
  prime_of_lucasCheck 13441 11 [2, 2, 2, 2, 2, 2, 2, 3, 5, 7] (by decide!) (by
    intro q hq
    simp only [List.mem_cons, List.mem_singleton, List.not_mem_nil, or_false] at hq
    rcases hq with rfl | rfl | rfl | rfl | rfl | rfl | rfl | rfl | rfl | rfl
    · exact (by norm_num)
    · exact (by norm_num)
    · exact (by norm_num)
    · exact (by norm_num)
    · exact (by norm_num)
    · exact (by norm_num)
    · exact (by norm_num)
    · exact (by norm_num)
    · exact (by norm_num)
    · exact (by norm_num))

theorem prime_cert_17449 : Nat.Prime 17449 :=
  prime_of_lucasCheck 17449 14 [2, 2, 2, 3, 727] (by decide!) (by
    intro q hq
    simp only [List.mem_cons, List.mem_singleton, List.not_mem_nil, or_false] at hq
    rcases hq with rfl | rfl | rfl | rfl | rfl
    · exact (by norm_num)
    · exact (by norm_num)
    · exact (by norm_num)
    · exact (by norm_num)
    · exact (by norm_num))

theorem prime_cert_18169 : Nat.Prime 18169 :=
  prime_of_lucasCheck 18169 11 [2, 2, 2, 3, 757] (by decide!) (by
    intro q hq
    simp only [List.mem_cons, List.mem_singleton, List.not_mem_nil, or_false] at hq
    rcases hq with rfl | rfl | rfl | rfl | rfl
    · exact (by norm_num)
    · exact (by norm_num)
    · exact (by norm_num)
    · exact (by norm_num)
    · exact (by norm_num))

theorem prime_cert_20113 : Nat.Prime 20113 :=
  prime_of_lucasCheck 20113 10 [2, 2, 2, 2, 3, 419] (by decide!) (by
    intro q hq
    simp only [List.mem_cons, List.mem_singleton, List.not_mem_nil, or_false] at hq
    rcases hq with rfl | rfl | rfl | rfl | rfl | rfl
    · exact (by norm_num)
    · exact (by norm_num)
    · exact (by norm_num)
    · exact (by norm_num)
    · exact (by norm_num)
    · exact (by norm_num))

theorem prime_cert_24809 : Nat.Prime 24809 :=
  prime_of_lucasCheck 24809 6 [2, 2, 2, 7, 443] (by decide!) (by
    intro q hq
    simp only [List.mem_cons, List.mem_singleton, List.not_mem_nil, or_false] at hq
    rcases hq with rfl | rfl | rfl | rfl | rfl
    · exact (by norm_num)
    · exact (by norm_num)
    · exact (by norm_num)
    · exact (by norm_num)
    · exact (by norm_num))

theorem prime_cert_41201 : Nat.Prime 41201 :=
  prime_of_lucasCheck 41201 3 [2, 2, 2, 2, 5, 5, 103] (by decide!) (by
    intro q hq
    simp only [List.mem_cons, List.mem_singleton, List.not_mem_nil, or_false] at hq
    rcases hq with rfl | rfl | rfl | rfl | rfl | rfl | rfl
    · exact (by norm_num)
    · exact (by norm_num)
    · exact (by norm_num)
    · exact (by norm_num)
    · exact (by norm_num)
    · exact (by norm_num)
    · exact (by norm_num))

theorem prime_cert_65537 : Nat.Prime 65537 :=
  prime_of_lucasCheck 65537 3 [2, 2, 2, 2, 2, 2, 2, 2, 2, 2, 2, 2, 2, 2, 2, 2] (by decide!) (by
    intro q hq
    simp only [List.mem_cons, List.mem_singleton, List.not_mem_nil, or_false] at hq
    rcases hq with rfl | rfl | rfl | rfl | rfl | rfl | rfl | rfl | rfl | rfl | rfl | rfl | rfl | rfl | rfl | rfl
    · exact (by norm_num)
    · exact (by norm_num)
    · exact (by norm_num)
    · exact (by norm_num)
    · exact (by norm_num)
    · exact (by norm_num)
    · exact (by norm_num)
    · exact (by norm_num)
    · exact (by norm_num)
    · exact (by norm_num)
    · exact (by norm_num)
    · exact (by norm_num)
    · exact (by norm_num)
    · exact (by norm_num)
    · exact (by norm_num)
    · exact (by norm_num))

theorem prime_cert_78283 : Nat.Prime 78283 :=
  prime_of_lucasCheck 78283 3 [2, 3, 3, 4349] (by decide!) (by
    intro q hq
    simp only [List.mem_cons, List.mem_singleton, List.not_mem_nil, or_false] at hq
    rcases hq with rfl | rfl | rfl | rfl
    · exact (by norm_num)
    · exact (by norm_num)
    · exact (by norm_num)
    · exact prime_cert_4349)

theorem prime_cert_96557 : Nat.Prime 96557 :=
  prime_of_lucasCheck 96557 2 [2, 2, 101, 239] (by decide!) (by
    intro q hq
    simp only [List.mem_cons, List.mem_singleton, List.not_mem_nil, or_false] at hq
    rcases hq with rfl | rfl | rfl | rfl
    · exact (by norm_num)
    · exact (by norm_num)
    · exact (by norm_num)
    · exact (by norm_num))

theorem prime_cert_490463 : Nat.Prime 490463 :=
  prime_of_lucasCheck 490463 14 [2, 7, 53, 661] (by decide!) (by
    intro q hq
    simp only [List.mem_cons, List.mem_singleton, List.not_mem_nil, or_false] at hq
    rcases hq with rfl | rfl | rfl | rfl
    · exact (by norm_num)
    · exact (by norm_num)
    · exact (by norm_num)
    · exact (by norm_num))

theorem prime_cert_704251 : Nat.Prime 704251 :=
  prime_of_lucasCheck 704251 2 [2, 3, 3, 5, 5, 5, 313] (by decide!) (by
    intro q hq
    simp only [List.mem_cons, List.mem_singleton, List.not_mem_nil, or_false] at hq
    rcases hq with rfl | rfl | rfl | rfl | rfl | rfl | rfl
    · exact (by norm_num)
    · exact (by norm_num)
    · exact (by norm_num)
    · exact (by norm_num)
    · exact (by norm_num)
    · exact (by norm_num)
    · exact (by norm_num))

theorem prime_cert_1206781 : Nat.Prime 1206781 :=
  prime_of_lucasCheck 1206781 10 [2, 2, 3, 5, 20113] (by decide!) (by
    intro q hq
    simp only [List.mem_cons, List.mem_singleton, List.not_mem_nil, or_false] at hq
    rcases hq with rfl | rfl | rfl | rfl | rfl
    · exact (by norm_num)
    · exact (by norm_num)
    · exact (by norm_num)
    · exact (by norm_num)
    · exact prime_cert_20113)

theorem prime_cert_6700417 : Nat.Prime 6700417 :=
  prime_of_lucasCheck 6700417 5 [2, 2, 2, 2, 2, 2, 2, 3, 17449] (by decide!) (by
    intro q hq
    simp only [List.mem_cons, List.mem_singleton, List.not_mem_nil, or_false] at hq
    rcases hq with rfl | rfl | rfl | rfl | rfl | rfl | rfl | rfl | rfl
    · exact (by norm_num)
    · exact (by norm_num)
    · exact (by norm_num)
    · exact (by norm_num)
    · exact (by norm_num)
    · exact (by norm_num)
    · exact (by norm_num)
    · exact (by norm_num)
    · exact prime_cert_17449)

theorem prime_cert_7240687 : Nat.Prime 7240687 :=
  prime_of_lucasCheck 7240687 3 [2, 3, 1206781] (by decide!) (by
    intro q hq
    simp only [List.mem_cons, List.mem_singleton, List.not_mem_nil, or_false] at hq
    rcases hq with rfl | rfl | rfl
    · exact (by norm_num)
    · exact (by norm_num)
    · exact prime_cert_1206781)

theorem prime_cert_13331831 : Nat.Prime 13331831 :=
  prime_of_lucasCheck 13331831 13 [2, 5, 971, 1373] (by decide!) (by
    intro q hq
    simp only [List.mem_cons, List.mem_singleton, List.not_mem_nil, or_false] at hq
    rcases hq with rfl | rfl | rfl | rfl
    · exact (by norm_num)
    · exact (by norm_num)
    · exact (by norm_num)
    · exact prime_cert_1373)

theorem prime_cert_107590001 : Nat.Prime 107590001 :=
  prime_of_lucasCheck 107590001 3 [2, 2, 2, 2, 5, 5, 5, 5, 7, 29, 53] (by decide!) (by
    intro q hq
    simp only [List.mem_cons, List.mem_singleton, List.not_mem_nil, or_false] at hq
    rcases hq with rfl | rfl | rfl | rfl | rfl | rfl | rfl | rfl | rfl | rfl | rfl
    · exact (by norm_num)
    · exact (by norm_num)
    · exact (by norm_num)
    · exact (by norm_num)
    · exact (by norm_num)
    · exact (by norm_num)
    · exact (by norm_num)
    · exact (by norm_num)
    · exact (by norm_num)
    · exact (by norm_num)
    · exact (by norm_num))

theorem prime_cert_204061199 : Nat.Prime 204061199 :=
  prime_of_lucasCheck 204061199 11 [2, 11, 23, 107, 3769] (by decide!) (by
    intro q hq
    simp only [List.mem_cons, List.mem_singleton, List.not_mem_nil, or_false] at hq
    rcases hq with rfl | rfl | rfl | rfl | rfl
    · exact (by norm_num)
    · exact (by norm_num)
    · exact (by norm_num)
    · exact (by norm_num)
    · exact prime_cert_3769)

theorem prime_cert_34282281433 : Nat.Prime 34282281433 :=
  prime_of_lucasCheck 34282281433 17 [2, 2, 2, 3, 7, 204061199] (by decide!) (by
    intro q hq
    simp only [List.mem_cons, List.mem_singleton, List.not_mem_nil, or_false] at hq
    rcases hq with rfl | rfl | rfl | rfl | rfl | rfl
    · exact (by norm_num)
    · exact (by norm_num)
    · exact (by norm_num)
    · exact (by norm_num)
    · exact (by norm_num)
    · exact prime_cert_204061199)

theorem prime_cert_66417393611 : Nat.Prime 66417393611 :=
  prime_of_lucasCheck 66417393611 6 [2, 5, 53, 173, 197, 3677] (by decide!) (by
    intro q hq
    simp only [List.mem_cons, List.mem_singleton, List.not_mem_nil, or_false] at hq
    rcases hq with rfl | rfl | rfl | rfl | rfl | rfl
    · exact (by norm_num)
    · exact (by norm_num)
    · exact (by norm_num)
    · exact (by norm_num)
    · exact (by norm_num)
    · exact prime_cert_3677)

theorem prime_cert_11290956913871 : Nat.Prime 11290956913871 :=
  prime_of_lucasCheck 11290956913871 13 [2, 5, 17, 66417393611] (by decide!) (by
    intro q hq
    simp only [List.mem_cons, List.mem_singleton, List.not_mem_nil, or_false] at hq
    rcases hq with rfl | rfl | rfl | rfl
    · exact (by norm_num)
    · exact (by norm_num)
    · exact (by norm_num)
    · exact prime_cert_66417393611)

theorem prime_cert_46076956964474543 : Nat.Prime 46076956964474543 :=
  prime_of_lucasCheck 46076956964474543 5 [2, 23, 18169, 78283, 704251] (by decide!) (by
    intro q hq
    simp only [List.mem_cons, List.mem_singleton, List.not_mem_nil, or_false] at hq
    rcases hq with rfl | rfl | rfl | rfl | rfl
    · exact (by norm_num)
    · exact (by norm_num)
    · exact prime_cert_18169
    · exact prime_cert_78283
    · exact prime_cert_704251)

theorem prime_cert_173378833005251801 : Nat.Prime 173378833005251801 :=
  prime_of_lucasCheck 173378833005251801 6 [2, 2, 2, 5, 5, 2621, 24809, 13331831] (by decide!) (by
    intro q hq
    simp only [List.mem_cons, List.mem_singleton, List.not_mem_nil, or_false] at hq
    rcases hq with rfl | rfl | rfl | rfl | rfl | rfl | rfl | rfl
    · exact (by norm_num)
    · exact (by norm_num)
    · exact (by norm_num)
    · exact (by norm_num)
    · exact (by norm_num)
    · exact prime_cert_2621
    · exact prime_cert_24809
    · exact prime_cert_13331831)

theorem prime_cert_22149492674086928081353 : Nat.Prime 22149492674086928081353 :=
  prime_of_lucasCheck 22149492674086928081353 5 [2, 2, 2, 3, 5323, 173378833005251801] (by decide!) (by
    intro q hq
    simp only [List.mem_cons, List.mem_singleton, List.not_mem_nil, or_false] at hq
    rcases hq with rfl | rfl | rfl | rfl | rfl | rfl
    · exact (by norm_num)
    · exact (by norm_num)
    · exact (by norm_num)
    · exact (by norm_num)
    · exact prime_cert_5323
    · exact prime_cert_173378833005251801)

theorem prime_cert_132896956044521568488119 : Nat.Prime 132896956044521568488119 :=
  prime_of_lucasCheck 132896956044521568488119 6 [2, 3, 22149492674086928081353] (by decide!) (by
    intro q hq
    simp only [List.mem_cons, List.mem_singleton, List.not_mem_nil, or_false] at hq
    rcases hq with rfl | rfl | rfl
    · exact (by norm_num)
    · exact (by norm_num)
    · exact prime_cert_22149492674086928081353)

theorem prime_cert_255515944373312847190720520512484175977 : Nat.Prime 255515944373312847190720520512484175977 :=
  prime_of_lucasCheck 255515944373312847190720520512484175977 3 [2, 2, 2, 7, 7, 11, 1627, 2657, 4423, 41201, 96557, 7240687, 107590001] (by decide!) (by
    intro q hq
    simp only [List.mem_cons, List.mem_singleton, List.not_mem_nil, or_false] at hq
    rcases hq with rfl | rfl | rfl | rfl | rfl | rfl | rfl | rfl | rfl | rfl | rfl | rfl | rfl
    · exact (by norm_num)
    · exact (by norm_num)
    · exact (by norm_num)
    · exact (by norm_num)
    · exact (by norm_num)
    · exact (by norm_num)
    · exact prime_cert_1627
    · exact prime_cert_2657
    · exact prime_cert_4423
    · exact prime_cert_41201
    · exact prime_cert_96557
    · exact prime_cert_7240687
    · exact prime_cert_107590001)

theorem prime_cert_774023187263532362759620327192479577272145303 : Nat.Prime 774023187263532362759620327192479577272145303 :=
  prime_of_lucasCheck 774023187263532362759620327192479577272145303 3 [2, 3, 3, 2411, 34282281433, 11290956913871, 46076956964474543] (by decide!) (by
    intro q hq
    simp only [List.mem_cons, List.mem_singleton, List.not_mem_nil, or_false] at hq
    rcases hq with rfl | rfl | rfl | rfl | rfl | rfl | rfl
    · exact (by norm_num)
    · exact (by norm_num)
    · exact (by norm_num)
    · exact prime_cert_2411
    · exact prime_cert_34282281433
    · exact prime_cert_11290956913871
    · exact prime_cert_46076956964474543)

theorem prime_cert_835945042244614951780389953367877943453916927241 : Nat.Prime 835945042244614951780389953367877943453916927241 :=
  prime_of_lucasCheck 835945042244614951780389953367877943453916927241 11 [2, 2, 2, 3, 3, 3, 5, 774023187263532362759620327192479577272145303] (by decide!) (by
    intro q hq
    simp only [List.mem_cons, List.mem_singleton, List.not_mem_nil, or_false] at hq
    rcases hq with rfl | rfl | rfl | rfl | rfl | rfl | rfl | rfl
    · exact (by norm_num)
    · exact (by norm_num)
    · exact (by norm_num)
    · exact (by norm_num)
    · exact (by norm_num)
    · exact (by norm_num)
    · exact (by norm_num)
    · exact prime_cert_774023187263532362759620327192479577272145303)

theorem prime_cert_205115282021455665897114700593932402728804164701536103180137503955397371 : Nat.Prime 205115282021455665897114700593932402728804164701536103180137503955397371 :=
  prime_of_lucasCheck 205115282021455665897114700593932402728804164701536103180137503955397371 10 [2, 3, 5, 29, 29, 31, 7723, 132896956044521568488119, 255515944373312847190720520512484175977] (by decide!) (by
    intro q hq
    simp only [List.mem_cons, List.mem_singleton, List.not_mem_nil, or_false] at hq
    rcases hq with rfl | rfl | rfl | rfl | rfl | rfl | rfl | rfl | rfl
    · exact (by norm_num)
    · exact (by norm_num)
    · exact (by norm_num)
    · exact (by norm_num)
    · exact (by norm_num)
    · exact (by norm_num)
    · exact prime_cert_7723
    · exact prime_cert_132896956044521568488119
    · exact prime_cert_255515944373312847190720520512484175977)

theorem prime_cert_115792089210356248762697446949407573530086143415290314195533631308867097853951 : Nat.Prime 115792089210356248762697446949407573530086143415290314195533631308867097853951 :=
  prime_of_lucasCheck 115792089210356248762697446949407573530086143415290314195533631308867097853951 6 [2, 3, 5, 5, 17, 257, 641, 1531, 65537, 490463, 6700417, 835945042244614951780389953367877943453916927241] (by decide!) (by
    intro q hq
    simp only [List.mem_cons, List.mem_singleton, List.not_mem_nil, or_false] at hq
    rcases hq with rfl | rfl | rfl | rfl | rfl | rfl | rfl | rfl | rfl | rfl | rfl | rfl
    · exact (by norm_num)
    · exact (by norm_num)
    · exact (by norm_num)
    · exact (by norm_num)
    · exact (by norm_num)
    · exact (by norm_num)
    · exact (by norm_num)
    · exact prime_cert_1531
    · exact prime_cert_65537
    · exact prime_cert_490463
    · exact prime_cert_6700417
    · exact prime_cert_835945042244614951780389953367877943453916927241)

theorem prime_cert_115792089237316195423570985008687907853269984665640564039457584007908834671663 : Nat.Prime 115792089237316195423570985008687907853269984665640564039457584007908834671663 :=
  prime_of_lucasCheck 115792089237316195423570985008687907853269984665640564039457584007908834671663 3 [2, 3, 7, 13441, 205115282021455665897114700593932402728804164701536103180137503955397371] (by decide!) (by
    intro q hq
    simp only [List.mem_cons, List.mem_singleton, List.not_mem_nil, or_false] at hq
    rcases hq with rfl | rfl | rfl | rfl | rfl
    · exact (by norm_num)
    · exact (by norm_num)
    · exact (by norm_num)
    · exact prime_cert_13441
    · exact prime_cert_205115282021455665897114700593932402728804164701536103180137503955397371)

/-! ## Scalar multiples of points of odd order -/

theorem repr_eq_zero {p : Nat} {W : WeierstrassCurve.Affine (ZMod p)} (Q : W.Point)
    (h : repr Q = ⟨none, none⟩) : Q = 0 := by
  rcases Q with _ | ⟨h₁⟩
  · rfl
  · rw [repr_some] at h
    simp at h

theorem repr_some_of_range {p : Nat} [Fact p.Prime] {W : WeierstrassCurve.Affine (ZMod p)}
    (X Y : Int) (hX : 0 ≤ X) (hXP : X < p) (hY : 0 ≤ Y) (hYP : Y < p)
    (h : W.Nonsingular (X : ZMod p) (Y : ZMod p)) :
    repr (Point.some h) = ⟨some X, some Y⟩ := by
  rw [repr_some, ZMod.val_intCast, ZMod.val_intCast, Int.emod_eq_of_lt hX hXP,
    Int.emod_eq_of_lt hY hYP]

theorem doublesOK_spec {p : Nat} [Fact p.Prime] (hp2 : 2 < p) (ec : EC) (hP : ec.P = p) :
    ∀ (n : Nat) (Q : (ec.curve p).Point), Q ≠ 0 → doublesOK ec n (repr Q) = true →
      ∀ j, j ≤ n → 2 ^ j • Q ≠ 0 := by
  intro n
  induction n with
  | zero =>
    intro Q hQ _ j hj
    have : j = 0 := by omega
    subst this
    simpa using hQ
  | succ n ih =>
    intro Q hQ hok j hj
    rcases Q with _ | ⟨h₁⟩
    · exact absurd rfl hQ
    · rename_i x y
      rw [repr_some] at hok
      simp only [doublesOK, Bool.and_eq_true, bne_iff_ne, ne_eq] at hok
      obtain ⟨hy, hrest⟩ := hok
      have hy0 : y ≠ 0 := by
        intro h
        apply hy
        rw [h, ZMod.val_zero]
        rfl
      have h2 : (2 : ZMod p) ≠ 0 := by
        intro h
        have h3 : ((2 : Nat) : ZMod p) = 0 := by exact_mod_cast h
        rw [ZMod.natCast_zmod_eq_zero_iff_dvd] at h3
        exact absurd (Nat.le_of_dvd (by norm_num) h3) (by omega)
      have hneg : y ≠ (ec.curve p).negY x y := by
        intro h
        simp only [EC.curve, negY, zero_mul, sub_zero] at h
        have : (2 : ZMod p) * y = 0 := by linear_combination h
        rcases mul_eq_zero.mp this with h' | h'
        · exact h2 h'
        · exact hy0 h'
      have hsum : Point.some h₁ + Point.some h₁ ≠ 0 := by
        rw [Point.add_self_of_Y_ne hneg]
        exact Point.some_ne_zero _
      have hadd := Add_repr hp2 ec hP (Point.some h₁) (Point.some h₁) (Or.inl hQ) (fun _ => hsum)
      rw [repr_some] at hadd
      rw [hadd] at hrest
      have hih := ih _ hsum hrest
      rcases j with _ | j
      · rw [pow_zero, one_nsmul]
        exact hQ
      · have := hih j (by omega)
        rwa [pow_succ, mul_smul, two_nsmul]

theorem Mul_of_odd_order {p : Nat} [Fact p.Prime] (hp2 : 2 < p) (ec : EC) (hP : ec.P = p)
    (Q : (ec.curve p).Point) (hQ : Q ≠ 0) (hodd : Odd (addOrderOf Q)) (k : Nat) :
    ec.Mul (k : Int) (repr Q) = .ok (repr (k • Q)) :=
  Mul_repr hp2 ec hP k Q fun j _ => two_pow_smul_ne_zero Q hQ hodd j

theorem odd_order_of_eval {p : Nat} [Fact p.Prime] (hp2 : 2 < p) (ec : EC) (hP : ec.P = p)
    (Q : (ec.curve p).Point) (hQ : Q ≠ 0) (N : Nat) (hN : N % 2 = 1)
    (hd : doublesOK ec (BitLen (N : Int)) (repr Q) = true)
    (hmul : ec.Mul (N : Int) (repr Q) = .ok ⟨none, none⟩) :
    Odd (addOrderOf Q) := by
  have h1 := Mul_repr hp2 ec hP N Q (doublesOK_spec hp2 ec hP _ Q hQ hd)
  rw [hmul] at h1
  have h2 : N • Q = 0 := repr_eq_zero _ (Except.ok.inj h1).symm
  exact Odd.of_dvd_nat (Nat.odd_iff.mpr hN) (addOrderOf_dvd_of_nsmul_eq_zero h2)

/-! ## The generators of the named curves -/

instance fact_prime_pK1 : Fact (Nat.Prime pK1) :=
  ⟨prime_cert_115792089237316195423570985008687907853269984665640564039457584007908834671663⟩

instance fact_prime_pR1 : Fact (Nat.Prime pR1) :=
  ⟨prime_cert_115792089210356248762697446949407573530086143415290314195533631308867097853951⟩

theorem K1_disc : (4 * curveK1.a ^ 3 + 27 * curveK1.b ^ 2) % curveK1.P ≠ 0 := by decide!

theorem R1_disc : (4 * curveR1.a ^ 3 + 27 * curveR1.b ^ 2) % curveR1.P ≠ 0 := by decide!

theorem BaseMul_of_eval {p : Nat} [Fact p.Prime] (hp2 : 2 < p) (ec : EC) (hP : ec.P = p)
    (X Y : Int) (hG : ec.G = ⟨some X, some Y⟩)
    (hX : 0 ≤ X) (hXP : X < ec.P) (hY : 0 ≤ Y) (hYP : Y < ec.P)
    (hΔ : (4 * ec.a ^ 3 + 27 * ec.b ^ 2) % ec.P ≠ 0) (hon : ec.On ec.G = .ok true)
    (N : Nat) (hN : ec.N = N) (hodd : N % 2 = 1)
    (hd : doublesOK ec (BitLen ec.N) ec.G = true) (hmul : ec.Mul ec.N ec.G = .ok ⟨none, none⟩) :
    ∃ h : (ec.curve p).Nonsingular (X : ZMod p) (Y : ZMod p),
      Odd (addOrderOf (Point.some h)) ∧
      ∀ k : Nat, ec.BaseMul (k : Int) = .ok (repr (k • Point.some h)) := by
  rw [hG] at hon
  have h := nonsingular_of_On hp2 ec hP hΔ X Y hon
  have hr : repr (Point.some h) = ec.G := by
    rw [hG]
    exact repr_some_of_range X Y hX (by omega) hY (by omega) h
  have hoddQ : Odd (addOrderOf (Point.some h)) := by
    refine odd_order_of_eval hp2 ec hP _ (Point.some_ne_zero h) N hodd ?_ ?_
    · rw [hr, ← hN]; exact hd
    · rw [hr, ← hN]; exact hmul
  refine ⟨h, hoddQ, fun k => ?_⟩
  have := Mul_of_odd_order hp2 ec hP _ (Point.some_ne_zero h) hoddQ k
  rw [hr] at this
  exact this

/-! ## Scalar multiplication computes the group-law multiple -/

instance fact_prime_seven : Fact (Nat.Prime 7) := ⟨by norm_num⟩

/-- C1. `Mul` computes the group-law scalar multiple. On a curve with prime modulus
`P = p > 2` and `4a^3 + 27b^2` not congruent to `0`, a point `(X, Y)` with
coordinates in `[0, P)` that satisfies `On` represents an element `Q` of the group of
the curve `y^2 = x^3 + ax + b` over `ZMod p`; if the order of `Q` is odd then for
every `k ≥ 0`, `Mul(k, (X, Y))` returns the representation of `k • Q`: the point
without coordinates when `k • Q` is the identity, and its affine coordinates reduced
to `[0, P)` otherwise. In particular, on each named curve `BaseMul(k)` is the
representation of `k • G` for every `k ≥ 0`. -/
theorem mul_eq_smul {p : Nat} [Fact p.Prime] (ec : EC) (hp : 2 < p) (hP : ec.P = p)
    (hΔ : (4 * ec.a ^ 3 + 27 * ec.b ^ 2) % ec.P ≠ 0) (X Y : Int)
    (hX : 0 ≤ X) (hXP : X < ec.P) (hY : 0 ≤ Y) (hYP : Y < ec.P)
    (hon : ec.On ⟨some X, some Y⟩ = .ok true) :
    (∃ Q : (ec.curve p).Point, repr Q = ⟨some X, some Y⟩ ∧
      (Odd (addOrderOf Q) → ∀ k : Nat, ec.Mul (k : Int) ⟨some X, some Y⟩ = .ok (repr (k • Q)))) ∧
    (∃ ec1, S256K1 = .ok (some ec1) ∧ ∃ G : (ec1.curve pK1).Point, repr G = ec1.G ∧
      ∀ k : Nat, ec1.BaseMul (k : Int) = .ok (repr (k • G))) ∧
    (∃ ec2, S256R1 = .ok (some ec2) ∧ ∃ G : (ec2.curve pR1).Point, repr G = ec2.G ∧
      ∀ k : Nat, ec2.BaseMul (k : Int) = .ok (repr (k • G))) := by
  refine ⟨?_, ?_, ?_⟩
  · have h := nonsingular_of_On hp ec hP hΔ X Y hon
    have hr : repr (Point.some h) = ⟨some X, some Y⟩ :=
      repr_some_of_range X Y hX (by omega) hY (by omega) h
    refine ⟨Point.some h, hr, fun hodd k => ?_⟩
    have := Mul_of_odd_order hp ec hP _ (Point.some_ne_zero h) hodd k
    rwa [hr] at this
  · obtain ⟨h, -, hk⟩ := BaseMul_of_eval (p := pK1) (by decide) curveK1 rfl
      0x79BE667EF9DCBBAC55A06295CE870B07029BFCDB2DCE28D959F2815B16F81798
      0x483ADA7726A3C4655DA4FBFC0E1108A8FD17B448A68554199C47D08FFB10D4B8
      rfl (by decide) (by decide) (by decide) (by decide) K1_disc K1_On_G
      0xFFFFFFFFFFFFFFFFFFFFFFFFFFFFFFFEBAAEDCE6AF48A03BBFD25E8CD0364141 rfl (by decide)
      K1_doubles K1_mul_N
    exact ⟨curveK1, S256K1_eq, Point.some h,
      repr_some_of_range _ _ (by decide) (by decide) (by decide) (by decide) h, hk⟩
  · obtain ⟨h, -, hk⟩ := BaseMul_of_eval (p := pR1) (by decide) curveR1 rfl
      0x6B17D1F2E12C4247F8BCE6E563A440F277037D812DEB33A0F4A13945D898C296
      0x4FE342E2FE1A7F9B8EE7EB4A7C0F9E162BCE33576B315ECECBB6406837BF51F5
      rfl (by decide) (by decide) (by decide) (by decide) R1_disc R1_On_G
      0xFFFFFFFF00000000FFFFFFFFFFFFFFFFBCE6FAADA7179E84F3B9CAC2FC632551 rfl (by decide)
      R1_doubles R1_mul_N
    exact ⟨curveR1, S256R1_eq, Point.some h,
      repr_some_of_range _ _ (by decide) (by decide) (by decide) (by decide) h, hk⟩

theorem mul_eq_smul_witness :
    (2 < 7) ∧ (7 : Int) = ((7 : Nat) : Int) ∧ (4 * (0 : Int) ^ 3 + 27 * 3 ^ 2) % 7 ≠ 0 ∧
    EC.On ⟨7, 0, 3, ⟨some 1, some 2⟩, 13⟩ ⟨some 1, some 2⟩ = .ok true ∧
    ∃ Q : (EC.curve ⟨7, 0, 3, ⟨some 1, some 2⟩, 13⟩ 7).Point, repr Q = ⟨some 1, some 2⟩ ∧
      Odd (addOrderOf Q) ∧
      ∀ k : Nat, EC.Mul ⟨7, 0, 3, ⟨some 1, some 2⟩, 13⟩ (k : Int) ⟨some 1, some 2⟩
        = .ok (repr (k • Q)) := by
  refine ⟨by decide, rfl, by decide, by decide, ?_⟩
  obtain ⟨Q, hr, hmul⟩ := (mul_eq_smul (p := 7) ⟨7, 0, 3, ⟨some 1, some 2⟩, 13⟩ (by decide) rfl
    (by decide) 1 2 (by decide) (by decide) (by decide) (by decide) (by decide)).1
  have hQ : Q ≠ 0 := by
    intro h
    rw [h, repr_zero] at hr
    simp at hr
  have hodd : Odd (addOrderOf Q) :=
    odd_order_of_eval (p := 7) (by decide) ⟨7, 0, 3, ⟨some 1, some 2⟩, 13⟩ rfl Q hQ 13 (by decide)
      (by rw [hr]; decide) (by rw [hr]; decide)
  exact ⟨Q, hr, hodd, hmul hodd⟩

/-! ## `Mul` by zero, `On` as a decision procedure, and decoding of empty input -/

/-- C16. Scalar zero: on every curve and for every `Point` value, on the curve or
not and with or without coordinates, `Mul(0, p)` returns the point without
coordinates. -/
theorem mul_zero_scalar (ec : EC) (p : Point) : ec.Mul 0 p = .ok ⟨none, none⟩ := rfl

/-- C15. `On` decides the curve equation: on a curve with modulus `P > 0`, `On`
returns `false` for every point that lacks a coordinate, and for a point with
integer coordinates `X`, `Y` of any sign and size it returns normally, with `true`
exactly when `Y^2` is congruent to `X^3 + aX + b` modulo `P`. -/
theorem on_decides_equation (ec : EC) (hP : 0 < ec.P) :
    (∀ p : Point, ec.Infinite p = true → ec.On p = .ok false) ∧
    (∀ X Y : Int, (∃ r, ec.On ⟨some X, some Y⟩ = .ok r) ∧
      (ec.On ⟨some X, some Y⟩ = .ok true ↔ Y ^ 2 ≡ X ^ 3 + ec.a * X + ec.b [ZMOD ec.P])) := by
  refine ⟨fun p hi => by simp [EC.On, hi, pure, Except.pure], fun X Y => ?_⟩
  rw [On_finite ec hP]
  refine ⟨⟨_, rfl⟩, ?_⟩
  simp only [Except.ok.injEq, decide_eq_true_eq, curve_rhs_emod]
  rfl

theorem on_decides_equation_witness :
    (0 : Int) < 7 ∧ EC.On ⟨7, 0, 3, ⟨some 1, some 2⟩, 13⟩ ⟨some (-6), some (-9)⟩ = .ok true ∧
    ((-9 : Int) ^ 2 ≡ (-6) ^ 3 + 0 * (-6) + 3 [ZMOD 7]) :=
  ⟨by decide, by decide,
    (((on_decides_equation ⟨7, 0, 3, ⟨some 1, some 2⟩, 13⟩ (by decide)).2 (-6) (-9)).2).1
      (by decide)⟩

/-- C17 (failing input). `Parse` indexes `bs[0]` before looking at the length, so on
the empty byte sequence it panics with an index-out-of-range fault on every curve,
and `NewEC` with the empty generator string, which hex-decodes to the empty
sequence, panics as well instead of returning nil. -/
theorem parse_empty_panics (sqrt : SqrtPrim) :
    (∀ ec : EC, ec.Parse sqrt [] = .error .indexOutOfRange) ∧
    NewEC sqrt "7" "0" "3" "" "D" = .error .indexOutOfRange :=
  ⟨fun _ => rfl, rfl⟩

/-! ## Parity selection in compressed decoding -/

/-- C11 (failing input). On the curve `y^2 = x^3 + 1` over the prime field of order 7
the input `03 03` has compressed shape and `X = 3` with `X^3 + 1 ≡ 0`, whose only
square root is `0`; `Parse` finds the root even, replaces it by `(P - 0) mod P = 0`
and returns `(3, 0)`: a point with even `Y` under the prefix `0x03`. -/
theorem parse_odd_prefix_even_root :
    compressedShape ⟨7, 0, 1, ⟨some 3, some 0⟩, 2⟩ [0x03, 0x03] ∧
    EC.Parse ModSqrt ⟨7, 0, 1, ⟨some 3, some 0⟩, 2⟩ [0x03, 0x03] = .ok (some ⟨some 3, some 0⟩) ∧
    Bit 0 0 = false := by
  refine ⟨⟨by simp, by decide⟩, by decide, by decide⟩

/-! ## Range of decoded coordinates -/

theorem foldl_bytes_lt : ∀ (bs : List UInt8) (acc : Nat),
    bs.foldl (fun acc b => acc * 256 + b.toNat) acc < (acc + 1) * 256 ^ bs.length := by
  intro bs
  induction bs with
  | nil => intro acc; simp
  | cons b t ih =>
    intro acc
    rw [List.foldl_cons, List.length_cons]
    have hb : b.toNat < 256 := UInt8.toNat_lt b
    calc List.foldl (fun acc b => acc * 256 + b.toNat) (acc * 256 + b.toNat) t
        < (acc * 256 + b.toNat + 1) * 256 ^ t.length := ih _
      _ ≤ ((acc + 1) * 256) * 256 ^ t.length := Nat.mul_le_mul_right _ (by omega)
      _ = (acc + 1) * 256 ^ (t.length + 1) := by rw [pow_succ]; ring

theorem SetBytes_nonneg (bs : List UInt8) : 0 ≤ SetBytes bs := Int.ofNat_nonneg _

theorem SetBytes_lt (bs : List UInt8) : SetBytes bs < (256 : Int) ^ bs.length := by
  have h := foldl_bytes_lt bs 0
  rw [zero_add, one_mul] at h
  show ((List.foldl (fun acc b => acc * 256 + b.toNat) 0 bs : Nat) : Int) < (256 : Int) ^ bs.length
  exact_mod_cast h

theorem Parse_neither (sqrt : SqrtPrim) (ec : EC) (b0 : UInt8) (t : List UInt8)
    (hc : ¬ compressedShape ec (b0 :: t)) (hu : ¬ uncompressedShape ec (b0 :: t)) :
    ec.Parse sqrt (b0 :: t) = .ok none := by
  have hg : ((b0 ≠ 0x02 ∧ b0 ≠ 0x03) ∨ (b0 :: t).length ≠ byteLen ec.P + 1) ∧
      (b0 ≠ 0x04 ∨ (b0 :: t).length ≠ byteLen ec.P * 2 + 1) := by
    constructor
    · by_contra h
      push_neg at h
      apply hc
      refine ⟨?_, h.2⟩
      by_cases h2 : b0 = 0x02
      · left; simp [h2]
      · right; simp [h.1 h2]
    · by_contra h
      push_neg at h
      apply hu
      exact ⟨by simp [h.1], by rw [h.2]; ring⟩
  simp only [EC.Parse, hg, and_self, if_true, pure, Except.pure]

theorem sqrt_sound (sqrt : SqrtPrim) (P : Int) (h1 : ReturnsRoot sqrt P)
    (h2 : RejectsNonSquare sqrt P) (x r : Int) (hx0 : 0 ≤ x) (hxP : x < P)
    (hr : sqrt x P = .ok (some r)) : 0 ≤ r ∧ r < P ∧ r * r % P = x := by
  by_cases hex : ∃ y : Int, y * y % P = x
  · obtain ⟨r', hr', h0, hP, hrr⟩ := h1 x hx0 hxP hex
    rw [hr] at hr'
    simp only [Except.ok.injEq, Option.some.injEq] at hr'
    subst hr'
    exact ⟨h0, hP, hrr⟩
  · rw [h2 x hx0 hxP hex] at hr
    simp at hr

/-- C18 (counterexample). On a curve with the odd prime modulus 7 the uncompressed
input `04 FF FF` decodes to `(255, 255)` and the compressed input `02 08` decodes to
`(8, 2)`: coordinates that are not below `P`. -/
theorem parse_coordinates_not_reduced :
    EC.Parse ModSqrt ⟨7, 0, 3, ⟨some 1, some 2⟩, 13⟩ [0x04, 0xFF, 0xFF]
      = .ok (some ⟨some 255, some 255⟩) ∧
    EC.Parse ModSqrt ⟨7, 0, 3, ⟨some 1, some 2⟩, 13⟩ [0x02, 0x08] = .ok (some ⟨some 8, some 2⟩) ∧
    ¬ ((255 : Int) < 7) ∧ ¬ ((8 : Int) < 7) := by
  decide

/-- C18 (amended). On a curve with modulus `P > 0` of byte length `L` and a
square-root primitive meeting its contract at `P`, every point `(X, Y)` that `Parse`
returns comes from an input of compressed or uncompressed shape and has
`0 ≤ X < 256^L` and `0 ≤ Y`; moreover `Y < P` for a compressed input and
`Y < 256^L` for an uncompressed one. `X`, and `Y` of an uncompressed input, are the
raw big-endian values of the input bytes and are not reduced modulo `P`. -/
theorem parse_coordinate_bounds (sqrt : SqrtPrim) (ec : EC) (hP : 0 < ec.P)
    (h1 : ReturnsRoot sqrt ec.P) (h2 : RejectsNonSquare sqrt ec.P)
    (bs : List UInt8) (pt : Point) (h : ec.Parse sqrt bs = .ok (some pt)) :
    ∃ X Y : Int, pt = ⟨some X, some Y⟩ ∧ 0 ≤ X ∧ X < 256 ^ byteLen ec.P ∧ 0 ≤ Y ∧
      (compressedShape ec bs ∨ uncompressedShape ec bs) ∧
      (compressedShape ec bs → Y < ec.P) ∧
      (uncompressedShape ec bs → Y < 256 ^ byteLen ec.P) := by
  have hP0 : ec.P ≠ 0 := by omega
  have hL := byteLen_pos ec.P hP0
  cases bs with
  | nil => simp [EC.Parse] at h
  | cons b0 t =>
    by_cases hc : compressedShape ec (b0 :: t)
    · have hnu : ¬ uncompressedShape ec (b0 :: t) := by
        rintro ⟨-, hl⟩
        have := hc.2
        omega
      have hc0 := hc
      obtain ⟨hb, hl⟩ := hc
      simp only [List.head?_cons, Option.some.injEq] at hb
      simp only [List.length_cons, add_left_inj] at hl
      have hb2 : b0 = 0x02 ∨ b0 = 0x03 := hb
      rw [Parse_compressed sqrt ec hP b0 t hb2 hl] at h
      have hy0 := Int.emod_nonneg (SetBytes t ^ 3 % ec.P + ec.a * SetBytes t + ec.b) hP0
      have hy1 := Int.emod_lt_of_pos (SetBytes t ^ 3 % ec.P + ec.a * SetBytes t + ec.b) hP
      have hxlt : SetBytes t < 256 ^ byteLen ec.P := by rw [← hl]; exact SetBytes_lt t
      rcases hs : sqrt ((SetBytes t ^ 3 % ec.P + ec.a * SetBytes t + ec.b) % ec.P) ec.P
        with f | _ | r
      · rw [hs] at h; simp at h
      · rw [hs] at h; simp at h
      · obtain ⟨hr0, hrP, -⟩ := sqrt_sound sqrt ec.P h1 h2 _ r hy0 hy1 hs
        rw [hs] at h
        simp only at h
        split_ifs at h
        · simp only [Except.ok.injEq, Option.some.injEq] at h
          exact ⟨_, _, h.symm, SetBytes_nonneg t, hxlt, Int.emod_nonneg _ hP0,
            Or.inl hc0, fun _ => Int.emod_lt_of_pos _ hP, fun hu => absurd hu hnu⟩
        · simp only [Except.ok.injEq, Option.some.injEq] at h
          exact ⟨_, _, h.symm, SetBytes_nonneg t, hxlt, hr0,
            Or.inl hc0, fun _ => hrP, fun hu => absurd hu hnu⟩
    · by_cases hu : uncompressedShape ec (b0 :: t)
      · rw [Parse_uncompressed sqrt ec hP _ hu] at h
        simp only [Except.ok.injEq, Option.some.injEq] at h
        have hl := hu.2
        simp only [List.length_cons] at hl
        refine ⟨_, _, h.symm, SetBytes_nonneg _, ?_, SetBytes_nonneg _, Or.inr hu,
          fun hc' => absurd hc' hc, fun _ => ?_⟩
        · have := SetBytes_lt ((List.drop 1 (b0 :: t)).take (byteLen ec.P))
          rw [List.length_take, List.length_drop, List.length_cons] at this
          have e : min (byteLen ec.P) (t.length + 1 - 1) = byteLen ec.P := by omega
          rwa [e] at this
        · have := SetBytes_lt (List.drop (byteLen ec.P + 1) (b0 :: t))
          rw [List.length_drop, List.length_cons] at this
          have e : t.length + 1 - (byteLen ec.P + 1) = byteLen ec.P := by omega
          rwa [e] at this
      · rw [Parse_neither sqrt ec b0 t hc hu] at h
        simp at h

theorem parse_coordinate_bounds_witness :
    (0 : Int) < 7 ∧ ReturnsRoot ModSqrt (7 : Int) ∧ RejectsNonSquare ModSqrt (7 : Int) ∧
    EC.Parse ModSqrt ⟨7, 0, 3, ⟨some 1, some 2⟩, 13⟩ [0x02, 0x08] = .ok (some ⟨some 8, some 2⟩) ∧
    ∃ X Y : Int, (⟨some 8, some 2⟩ : Point) = ⟨some X, some Y⟩ ∧ 0 ≤ X ∧ X < 256 ^ 1 ∧ 0 ≤ Y ∧
      Y < 7 :=
  ⟨by decide, ModSqrt_returnsRoot 7 (by norm_num) (by decide),
    ModSqrt_rejectsNonSquare 7 (by norm_num) (by decide), by decide, by
      obtain ⟨X, Y, h, hX, hXL, hY, -, hc, -⟩ :=
        parse_coordinate_bounds ModSqrt ⟨7, 0, 3, ⟨some 1, some 2⟩, 13⟩ (by decide)
          (ModSqrt_returnsRoot 7 (by norm_num) (by decide))
          (ModSqrt_rejectsNonSquare 7 (by norm_num) (by decide)) [0x02, 0x08]
          ⟨some 8, some 2⟩ (by decide)
      exact ⟨X, Y, h, hX, hXL, hY, hc ⟨by simp, by decide⟩⟩⟩

/-! ## What `NewEC` guarantees about the generator -/

theorem Parse_congr (sqrt : SqrtPrim) (ec1 ec2 : EC) (hP : ec1.P = ec2.P) (ha : ec1.a = ec2.a)
    (hb : ec1.b = ec2.b) (bs : List UInt8) : ec1.Parse sqrt bs = ec2.Parse sqrt bs := by
  simp only [EC.Parse, hP, ha, hb]

theorem NewEC_some (sqrt : SqrtPrim) (p a b g n : String) (ec : EC)
    (h : NewEC sqrt p a b g n = .ok (some ec)) :
    SetString p = some ec.P ∧ SetString a = some ec.a ∧ SetString b = some ec.b ∧
    SetString n = some ec.N ∧
    ∃ bs, DecodeString g = some bs ∧ ec.Parse sqrt bs = .ok (some ec.G) ∧
      ec.Infinite ec.G = false := by
  unfold NewEC at h
  split at h
  · simp [pure, Except.pure] at h
  · rename_i P hp
    split at h
    · simp [pure, Except.pure] at h
    · rename_i A ha
      split at h
      · simp [pure, Except.pure] at h
      · rename_i B hb
        split at h
        · simp [pure, Except.pure] at h
        · rename_i bs hg
          rcases hpar : EC.Parse sqrt ⟨P, A, B, Point.zero, 0⟩ bs with f | _ | G
          · rw [hpar] at h; simp [bind, Except.bind] at h
          · rw [hpar] at h; simp [bind, Except.bind, pure, Except.pure] at h
          · rw [hpar] at h
            simp only [bind, Except.bind] at h
            split at h
            · simp [pure, Except.pure] at h
            · rename_i hinf
              split at h
              · simp [pure, Except.pure] at h
              · rename_i N hn
                simp only [pure, Except.pure, Except.ok.injEq, Option.some.injEq] at h
                subst h
                refine ⟨hp, ha, hb, hn, bs, hg, ?_, by simpa [EC.Infinite] using hinf⟩
                rw [← hpar]
                exact Parse_congr sqrt _ _ rfl rfl rfl bs

/-- C12 (counterexample). `NewEC` applied to `P = 7`, `a = 0`, `b = 3` and the
uncompressed generator encoding `04 01 01` returns a curve whose generator `(1, 1)`
does not satisfy `On`: `1` is not congruent to `1 + 3` modulo 7. -/
theorem newEC_generator_off_curve :
    NewEC ModSqrt "7" "0" "3" "040101" "D" = .ok (some ⟨7, 0, 3, ⟨some 1, some 1⟩, 13⟩) ∧
    EC.On ⟨7, 0, 3, ⟨some 1, some 1⟩, 13⟩ ⟨some 1, some 1⟩ = .ok false := by
  decide

/-- C12 (amended). Whenever `NewEC` returns a curve, its generator `G` has both
coordinates, i.e. is not the infinity point; and if moreover the generator encoding
has compressed shape, and the square-root primitive meets its contract at the
modulus `P > 0`, then `On(G)` is true on the returned curve. A generator given in
uncompressed form is stored as decoded, without a check of the curve equation. -/
theorem newEC_generator (sqrt : SqrtPrim) (p a b g n : String) (ec : EC)
    (h : NewEC sqrt p a b g n = .ok (some ec)) :
    ec.Infinite ec.G = false ∧
    (0 < ec.P → ReturnsRoot sqrt ec.P → RejectsNonSquare sqrt ec.P →
      (∀ bs, DecodeString g = some bs → compressedShape ec bs) → ec.On ec.G = .ok true) := by
  obtain ⟨-, -, -, -, bs, hg, hpar, hinf⟩ := NewEC_some sqrt p a b g n ec h
  refine ⟨hinf, fun hP h1 h2 hshape => ?_⟩
  have hP0 : ec.P ≠ 0 := by omega
  obtain ⟨hb, hl⟩ := hshape bs hg
  cases bs with
  | nil => simp at hl
  | cons b0 t =>
    simp only [List.head?_cons, Option.some.injEq] at hb
    simp only [List.length_cons, add_left_inj] at hl
    have hb2 : b0 = 0x02 ∨ b0 = 0x03 := hb
    rw [Parse_compressed sqrt ec hP b0 t hb2 hl] at hpar
    have hy0 := Int.emod_nonneg (SetBytes t ^ 3 % ec.P + ec.a * SetBytes t + ec.b) hP0
    have hy1 := Int.emod_lt_of_pos (SetBytes t ^ 3 % ec.P + ec.a * SetBytes t + ec.b) hP
    rcases hs : sqrt ((SetBytes t ^ 3 % ec.P + ec.a * SetBytes t + ec.b) % ec.P) ec.P
      with f | _ | r
    · rw [hs] at hpar; simp at hpar
    · rw [hs] at hpar; simp at hpar
    · obtain ⟨-, -, hrr⟩ := sqrt_sound sqrt ec.P h1 h2 _ r hy0 hy1 hs
      rw [hs] at hpar
      simp only at hpar
      split_ifs at hpar
      · simp only [Except.ok.injEq, Option.some.injEq] at hpar
        rw [← hpar, On_finite ec hP, neg_sq_emod, hrr]
        simp
      · simp only [Except.ok.injEq, Option.some.injEq] at hpar
        rw [← hpar, On_finite ec hP, sq, hrr]
        simp

theorem newEC_generator_witness :
    NewEC ModSqrt "7" "0" "3" "0301" "D" = .ok (some ⟨7, 0, 3, ⟨some 1, some 5⟩, 13⟩) ∧
    EC.Infinite ⟨7, 0, 3, ⟨some 1, some 5⟩, 13⟩ ⟨some 1, some 5⟩ = false ∧
    EC.On ⟨7, 0, 3, ⟨some 1, some 5⟩, 13⟩ ⟨some 1, some 5⟩ = .ok true :=
  ⟨by decide,
    (newEC_generator ModSqrt "7" "0" "3" "0301" "D" ⟨7, 0, 3, ⟨some 1, some 5⟩, 13⟩ (by decide)).1,
    (newEC_generator ModSqrt "7" "0" "3" "0301" "D" ⟨7, 0, 3, ⟨some 1, some 5⟩, 13⟩ (by decide)).2
      (by decide) (ModSqrt_returnsRoot 7 (by norm_num) (by decide))
      (ModSqrt_rejectsNonSquare 7 (by norm_num) (by decide))
      (by
        intro bs hbs
        have e : DecodeString "0301" = some [0x03, 0x01] := by decide
        rw [e] at hbs
        simp only [Option.some.injEq] at hbs
        subst hbs
        exact ⟨by simp, by decide⟩)⟩

/-! ## Construction failures -/

theorem hexDigits_none : ∀ (cs : List Char) (acc : Nat), (∃ c ∈ cs, hexVal c = none) →
    hexDigits cs acc = none := by
  intro cs
  induction cs with
  | nil => intro acc h; simp at h
  | cons c t ih =>
    intro acc h
    unfold hexDigits
    cases hc : hexVal c with
    | none => rfl
    | some d =>
      simp only
      apply ih
      obtain ⟨c', hmem, hbad⟩ := h
      rcases List.mem_cons.mp hmem with rfl | h'
      · rw [hc] at hbad; simp at hbad
      · exact ⟨c', h', hbad⟩

theorem SetString_none (s : String) (h : unparseable s) : SetString s = none := by
  unfold unparseable at h
  unfold SetString
  split
  · rfl
  · rename_i cs hs
    rw [hs] at h
    simp only [hexBody] at h
    by_cases hcs : cs = []
    · simp [hcs]
    · rw [if_neg hcs]
      rcases h with h | h
      · exact absurd h hcs
      · rw [hexDigits_none cs 0 h]; rfl
  · rename_i cs hs
    rw [hs] at h
    simp only [hexBody] at h
    by_cases hcs : cs = []
    · simp [hcs]
    · rw [if_neg hcs]
      rcases h with h | h
      · exact absurd h hcs
      · rw [hexDigits_none cs 0 h]; rfl
  · rename_i cs h1 h2 h3
    have hb : hexBody s.data = s.data := by
      unfold hexBody
      split
      · rename_i cs' hs'; exact absurd hs' (h2 cs')
      · rename_i cs' hs'; exact absurd hs' (h3 cs')
      · rfl
    rw [hb] at h
    rcases h with h | h
    · exact absurd h h1
    · rw [hexDigits_none _ 0 h]; rfl

/-- C13 (counterexample). `SetString` accepts one leading sign: `NewEC` with the
modulus string `+7` and the coefficient string `-1` returns a curve. -/
theorem newEC_accepts_signs :
    NewEC ModSqrt "+7" "-1" "3" "040102" "D" = .ok (some ⟨7, -1, 3, ⟨some 1, some 2⟩, 13⟩) := by
  decide

/-- C13 (amended). Construction fails on unparseable numeric parameters: if one of
`p`, `a`, `b` is, after removal of one optional leading `+` or `-`, empty or
contains a character that is not a hexadecimal digit, then `NewEC` returns nil; if
`n` is such a string, `NewEC` does not return a curve (it returns nil unless the
decoding of the generator, which comes first, faults). A leading sign alone does
not make a string unparseable. -/
theorem newEC_unparseable (sqrt : SqrtPrim) (p a b g n : String) :
    ((unparseable p ∨ unparseable a ∨ unparseable b) → NewEC sqrt p a b g n = .ok none) ∧
    (unparseable n → ∀ ec, NewEC sqrt p a b g n ≠ .ok (some ec)) := by
  constructor
  · rintro (h | h | h)
    · simp [NewEC, SetString_none p h, pure, Except.pure]
    · cases hp : SetString p <;> simp [NewEC, hp, SetString_none a h, pure, Except.pure]
    · cases hp : SetString p <;> cases ha : SetString a <;>
        simp [NewEC, hp, ha, SetString_none b h, pure, Except.pure]
  · intro h ec hec
    obtain ⟨-, -, -, hn, -⟩ := NewEC_some sqrt p a b g n ec hec
    rw [SetString_none n h] at hn
    simp at hn

theorem newEC_unparseable_witness :
    unparseable "" ∧ unparseable "12G4" ∧
    (∀ ec, NewEC ModSqrt
      "FFFFFFFFFFFFFFFFFFFFFFFFFFFFFFFFFFFFFFFFFFFFFFFFFFFFFFFEFFFFFC2F"
      "0000000000000000000000000000000000000000000000000000000000000000"
      "0000000000000000000000000000000000000000000000000000000000000007"
      "0279BE667EF9DCBBAC55A06295CE870B07029BFCDB2DCE28D959F2815B16F81798"
      "" ≠ .ok (some ec)) ∧
    NewEC ModSqrt "12G4" "0" "3" "040102" "D" = .ok none :=
  ⟨Or.inl rfl, Or.inr ⟨'G', by decide, by decide⟩,
    (newEC_unparseable ModSqrt _ _ _ _ "").2 (Or.inl rfl),
    (newEC_unparseable ModSqrt "12G4" "0" "3" "040102" "D").1
      (Or.inl (Or.inr ⟨'G', by decide, by decide⟩))⟩

theorem decodePairs_none : ∀ cs : List Char,
    (cs.length % 2 = 1 ∨ ∃ c ∈ cs, hexVal c = none) → decodePairs cs = none
  | [], h => by simp at h
  | [_], _ => rfl
  | c :: d :: cs, h => by
    unfold decodePairs
    cases hc : hexVal c with
    | none => rfl
    | some x =>
      cases hd : hexVal d with
      | none => rfl
      | some y =>
        simp only
        have ih := decodePairs_none cs (by
          rcases h with h | ⟨c', hmem, hbad⟩
          · left
            simp only [List.length_cons] at h
            omega
          · right
            rcases List.mem_cons.mp hmem with rfl | h'
            · rw [hc] at hbad; simp at hbad
            · rcases List.mem_cons.mp h' with rfl | h''
              · rw [hd] at hbad; simp at hbad
              · exact ⟨c', h'', hbad⟩)
        rw [ih]
        rfl

/-- C14. Construction fails on a bad generator encoding: for valid numeric strings
`p`, `a`, `b` (modulus `P` of byte length `L`) and any `n`, `NewEC` returns nil when
the generator string `g` is not valid hex (odd length or a character that is not a
hex digit), and when it decodes to a non-empty byte sequence whose first byte is
none of `0x02`, `0x03`, `0x04`, or whose length is not `L + 1` under the prefix
`0x02`/`0x03`, or not `2L + 1` under the prefix `0x04`. -/
theorem newEC_bad_generator (sqrt : SqrtPrim) (p a b g n : String) (P A B : Int)
    (hp : SetString p = some P) (ha : SetString a = some A) (hb : SetString b = some B) :
    ((g.data.length % 2 = 1 ∨ ∃ c ∈ g.data, hexVal c = none) →
      NewEC sqrt p a b g n = .ok none) ∧
    (∀ (b0 : UInt8) (t : List UInt8), DecodeString g = some (b0 :: t) →
      ((b0 ≠ 0x02 ∧ b0 ≠ 0x03 ∧ b0 ≠ 0x04) ∨
        ((b0 = 0x02 ∨ b0 = 0x03) ∧ (b0 :: t).length ≠ byteLen P + 1) ∨
        (b0 = 0x04 ∧ (b0 :: t).length ≠ 2 * byteLen P + 1)) →
      NewEC sqrt p a b g n = .ok none) := by
  constructor
  · intro h
    have hd : DecodeString g = none := decodePairs_none _ h
    simp [NewEC, hp, ha, hb, hd, pure, Except.pure]
  · intro b0 t hd hbad
    have hc : ¬ compressedShape ⟨P, A, B, Point.zero, 0⟩ (b0 :: t) := by
      rintro ⟨h1, h2⟩
      simp only [List.head?_cons, Option.some.injEq] at h1
      rcases hbad with ⟨n2, n3, -⟩ | ⟨-, hl⟩ | ⟨h4, -⟩
      · rcases h1 with h | h
        · exact n2 h
        · exact n3 h
      · exact hl h2
      · rcases h1 with h | h <;> rw [h4] at h <;> simp at h
    have hu : ¬ uncompressedShape ⟨P, A, B, Point.zero, 0⟩ (b0 :: t) := by
      rintro ⟨h1, h2⟩
      simp only [List.head?_cons, Option.some.injEq] at h1
      rcases hbad with ⟨-, -, n4⟩ | ⟨h23, -⟩ | ⟨-, hl⟩
      · exact n4 h1
      · rcases h23 with h | h <;> rw [h1] at h <;> simp at h
      · exact hl h2
    have hpar := Parse_neither sqrt ⟨P, A, B, Point.zero, 0⟩ b0 t hc hu
    simp [NewEC, hp, ha, hb, hd, hpar, bind, Except.bind, pure, Except.pure]

theorem newEC_bad_generator_witness :
    SetString "FFFFFFFFFFFFFFFFFFFFFFFFFFFFFFFFFFFFFFFFFFFFFFFFFFFFFFFEFFFFFC2F"
      = some 0xFFFFFFFFFFFFFFFFFFFFFFFFFFFFFFFFFFFFFFFFFFFFFFFFFFFFFFFEFFFFFC2F ∧
    NewEC ModSqrt
      "FFFFFFFFFFFFFFFFFFFFFFFFFFFFFFFFFFFFFFFFFFFFFFFFFFFFFFFEFFFFFC2F"
      "0000000000000000000000000000000000000000000000000000000000000000"
      "0000000000000000000000000000000000000000000000000000000000000007"
      "0579BE667EF9DCBBAC55A06295CE870B07029BFCDB2DCE28D959F2815B16F81798"
      "" = .ok none :=
  ⟨by decide!,
    (newEC_bad_generator ModSqrt _ _ _
      "0579BE667EF9DCBBAC55A06295CE870B07029BFCDB2DCE28D959F2815B16F81798" ""
      0xFFFFFFFFFFFFFFFFFFFFFFFFFFFFFFFFFFFFFFFFFFFFFFFFFFFFFFFEFFFFFC2F 0 7
      (by decide!) (by decide!) (by decide!)).2 0x05 _ rfl
      (Or.inl ⟨by decide, by decide, by decide⟩)⟩

/-! ## The slope of `Add` is a true quotient -/

theorem pow_sub_two_mul {p : Nat} [Fact p.Prime] (z : ZMod p) (hz : z ≠ 0) :
    z ^ ((p : Int) - 2).toNat * z = 1 := by
  have hp2 : 2 ≤ p := (Fact.out : p.Prime).two_le
  have h1 : ((p : Int) - 2).toNat = p - 2 := by omega
  rw [h1, ← pow_succ]
  have h2 : p - 2 + 1 = p - 1 := by omega
  rw [h2]
  exact ZMod.pow_card_sub_one_eq_one hz

theorem cast_ne_zero_of_range {p : Nat} [Fact p.Prime] (d : Int) (hd : d ≠ 0)
    (h1 : -(p : Int) < d) (h2 : d < p) : (d : ZMod p) ≠ 0 := by
  intro h
  rw [ZMod.intCast_zmod_eq_zero_iff_dvd] at h
  exact hd (Int.eq_zero_of_abs_lt_dvd h (by rw [abs_lt]; exact ⟨h1, h2⟩))

theorem slopeInt_chord {p : Nat} [Fact p.Prime] (ec : EC) (hP : ec.P = p)
    (X1 Y1 X2 Y2 : Int) (hd : ((X1 - X2 : Int) : ZMod p) ≠ 0) :
    ((slopeInt ec X1 Y1 X2 Y2 : Int) : ZMod p) * ((X1 - X2 : Int) : ZMod p)
      = ((Y1 - Y2 : Int) : ZMod p) := by
  have hne : ¬ (X1 = X2 ∧ Y1 = Y2) := by
    rintro ⟨h, -⟩
    apply hd
    rw [h, sub_self, Int.cast_zero]
  unfold slopeInt
  rw [if_neg hne, hP, ZMod.intCast_mod, Int.cast_mul, ZMod.intCast_mod, Int.cast_pow, mul_assoc,
    pow_sub_two_mul _ hd, mul_one]

theorem slopeInt_tangent {p : Nat} [Fact p.Prime] (ec : EC) (hP : ec.P = p)
    (X1 Y1 : Int) (hd : ((2 * Y1 : Int) : ZMod p) ≠ 0) :
    ((slopeInt ec X1 Y1 X1 Y1 : Int) : ZMod p) * ((2 * Y1 : Int) : ZMod p)
      = ((3 * X1 ^ 2 + ec.a : Int) : ZMod p) := by
  unfold slopeInt
  rw [if_pos ⟨rfl, rfl⟩, hP, ZMod.intCast_mod, Int.cast_mul, ZMod.intCast_mod, Int.cast_pow,
    mul_assoc, pow_sub_two_mul _ hd, mul_one]
  congr 1
  ring

/-- C19. `Add`'s slope branches implement the chord-and-tangent formulas with a true
modular inverse and normalised output: on a curve with prime modulus `P`, for finite
points `(X1, Y1)`, `(X2, Y2)` with coordinates in `[0, P)`, if `X1 ≠ X2`, or the two
points are equal and `2·Y1` is not congruent to `0`, then `Add` returns a finite
point `(X3, Y3)` with `0 ≤ X3, Y3 < P` for which there is an `s` with
`s·(X1 - X2) ≡ Y1 - Y2` in the chord case and `s·(2·Y1) ≡ 3·X1^2 + a` in the
tangent case, `X3 ≡ s^2 - X1 - X2` and `Y3 ≡ s·(X1 - X3) - Y1`, all modulo `P`. -/
theorem add_slope_formulas (p : Nat) (hp : p.Prime) (ec : EC) (hP : ec.P = p)
    (X1 Y1 X2 Y2 : Int) (hX1 : 0 ≤ X1) (hX1P : X1 < ec.P) (_hY1 : 0 ≤ Y1) (_hY1P : Y1 < ec.P)
    (hX2 : 0 ≤ X2) (hX2P : X2 < ec.P) (hY2 : 0 ≤ Y2) (hY2P : Y2 < ec.P)
    (hcase : X1 ≠ X2 ∨ (X1 = X2 ∧ Y1 = Y2 ∧ ¬ (2 * Y1 ≡ 0 [ZMOD ec.P]))) :
    ∃ X3 Y3 s : Int,
      ec.Add ⟨some X1, some Y1⟩ ⟨some X2, some Y2⟩ = .ok ⟨some X3, some Y3⟩ ∧
      0 ≤ X3 ∧ X3 < ec.P ∧ 0 ≤ Y3 ∧ Y3 < ec.P ∧
      (X1 ≠ X2 → s * (X1 - X2) ≡ Y1 - Y2 [ZMOD ec.P]) ∧
      (X1 = X2 → s * (2 * Y1) ≡ 3 * X1 ^ 2 + ec.a [ZMOD ec.P]) ∧
      X3 ≡ s ^ 2 - X1 - X2 [ZMOD ec.P] ∧ Y3 ≡ s * (X1 - X3) - Y1 [ZMOD ec.P] := by
  haveI : Fact p.Prime := ⟨hp⟩
  have hp2 : 2 ≤ p := hp.two_le
  have hP2 : 2 ≤ ec.P := by omega
  have hP0 : ec.P ≠ 0 := by omega
  have hPpos : 0 < ec.P := by omega
  have hcond : ¬ (X1 = X2 ∧ Y1 ≠ Y2) := by
    rintro ⟨hx, hy⟩
    rcases hcase with h | ⟨-, h, -⟩
    · exact h hx
    · exact hy h
  rw [Add_finite ec hP2, if_neg hcond]
  refine ⟨_, _, slopeInt ec X1 Y1 X2 Y2, rfl, Int.emod_nonneg _ hP0, Int.emod_lt_of_pos _ hPpos,
    Int.emod_nonneg _ hP0, Int.emod_lt_of_pos _ hPpos, ?_, ?_, ?_, ?_⟩
  · intro hx
    have hd : ((X1 - X2 : Int) : ZMod p) ≠ 0 :=
      cast_ne_zero_of_range _ (sub_ne_zero.mpr hx) (by omega) (by omega)
    have h := slopeInt_chord ec hP X1 Y1 X2 Y2 hd
    rw [hP]
    exact (ZMod.intCast_eq_intCast_iff _ _ p).1 (by push_cast at h ⊢; exact h)
  · intro hx
    rcases hcase with h | ⟨-, hy, h2⟩
    · exact absurd hx h
    · subst hx hy
      have hd : ((2 * Y1 : Int) : ZMod p) ≠ 0 := by
        intro h
        apply h2
        rw [hP]
        exact (ZMod.intCast_eq_intCast_iff _ _ p).1 (by rw [h, Int.cast_zero])
      have h := slopeInt_tangent ec hP X1 Y1 hd
      rw [hP]
      exact (ZMod.intCast_eq_intCast_iff _ _ p).1 (by push_cast at h ⊢; exact h)
  · have e : slopeInt ec X1 Y1 X2 Y2 ^ 2 - X1 - X2
        = slopeInt ec X1 Y1 X2 Y2 * slopeInt ec X1 Y1 X2 Y2 - (X1 + X2) := by ring
    rw [e]
    exact Int.mod_modEq _ _
  · exact Int.mod_modEq _ _

theorem add_slope_formulas_witness :
    Nat.Prime 7 ∧ ∃ X3 Y3 s : Int,
      EC.Add ⟨7, 0, 3, ⟨some 1, some 2⟩, 13⟩ ⟨some 1, some 2⟩ ⟨some 6, some 3⟩
        = .ok ⟨some X3, some Y3⟩ ∧
      X3 < 7 ∧ Y3 < 7 ∧ s * (1 - 6) ≡ 2 - 3 [ZMOD 7] := by
  obtain ⟨X3, Y3, s, h, -, hx, -, hy, hs, -⟩ :=
    add_slope_formulas 7 (by norm_num) ⟨7, 0, 3, ⟨some 1, some 2⟩, 13⟩ rfl 1 2 6 3
      (by decide) (by decide) (by decide) (by decide) (by decide) (by decide) (by decide)
      (by decide) (Or.inl (by decide))
  exact ⟨by norm_num, X3, Y3, s, h, hx, hy, hs (by decide)⟩

/-! ## Commutativity of `Add` on finite points -/

theorem slopeInt_emod (ec : EC) (X1 Y1 X2 Y2 : Int) :
    slopeInt ec X1 Y1 X2 Y2 % ec.P = slopeInt ec X1 Y1 X2 Y2 := by
  unfold slopeInt
  split_ifs <;> exact Int.emod_emod_of_dvd _ (dvd_refl _)

theorem slopeInt_symm {p : Nat} [Fact p.Prime] (ec : EC) (hP : ec.P = p)
    (X1 Y1 X2 Y2 : Int) (hd : ((X1 - X2 : Int) : ZMod p) ≠ 0) :
    slopeInt ec X1 Y1 X2 Y2 = slopeInt ec X2 Y2 X1 Y1 := by
  have hd' : ((X2 - X1 : Int) : ZMod p) ≠ 0 := by
    intro h
    apply hd
    have e : (X1 - X2 : Int) = -(X2 - X1) := by ring
    rw [e, Int.cast_neg, h, neg_zero]
  have h1 := slopeInt_chord ec hP X1 Y1 X2 Y2 hd
  have h2 := slopeInt_chord ec hP X2 Y2 X1 Y1 hd'
  have hz : ((slopeInt ec X1 Y1 X2 Y2 : Int) : ZMod p) = ((slopeInt ec X2 Y2 X1 Y1 : Int) : ZMod p) := by
    apply mul_right_cancel₀ hd
    rw [h1]
    have e1 : ((X1 - X2 : Int) : ZMod p) = -((X2 - X1 : Int) : ZMod p) := by push_cast; ring
    have e2 : ((Y1 - Y2 : Int) : ZMod p) = -((Y2 - Y1 : Int) : ZMod p) := by push_cast; ring
    rw [e1, e2, mul_neg, h2]
  have hm := (ZMod.intCast_eq_intCast_iff _ _ p).1 hz
  rw [Int.ModEq, ← hP, slopeInt_emod, slopeInt_emod] at hm
  exact hm

/-- C20. `Add` is commutative on finite points: on a curve with prime modulus `P`,
for all finite points `p`, `q` with coordinates in `[0, P)`, on the curve or not,
`Add(p, q)` returns normally and equals `Add(q, p)` (both the point without
coordinates, or both the same `X` and `Y`); and `Add(p, Infinity)` equals
`Add(Infinity, p)`. -/
theorem add_comm_finite (p : Nat) (hp : p.Prime) (ec : EC) (hP : ec.P = p)
    (X1 Y1 X2 Y2 : Int) (hX1 : 0 ≤ X1) (hX1P : X1 < ec.P) (_hY1 : 0 ≤ Y1) (_hY1P : Y1 < ec.P)
    (hX2 : 0 ≤ X2) (hX2P : X2 < ec.P) (_hY2 : 0 ≤ Y2) (_hY2P : Y2 < ec.P) :
    ec.Add ⟨some X1, some Y1⟩ ⟨some X2, some Y2⟩ = ec.Add ⟨some X2, some Y2⟩ ⟨some X1, some Y1⟩ ∧
    (∃ r, ec.Add ⟨some X1, some Y1⟩ ⟨some X2, some Y2⟩ = .ok r) ∧
    ec.Add ⟨some X1, some Y1⟩ ⟨none, none⟩ = ec.Add ⟨none, none⟩ ⟨some X1, some Y1⟩ := by
  haveI : Fact p.Prime := ⟨hp⟩
  have hp2 : 2 ≤ p := hp.two_le
  have hP2 : 2 ≤ ec.P := by omega
  refine ⟨?_, ?_, by simp [EC.Add, EC.Infinite]⟩
  · by_cases hx : X1 = X2
    · subst hx
      by_cases hy : Y1 = Y2
      · subst hy; rfl
      · rw [Add_finite ec hP2, Add_finite ec hP2, if_pos ⟨rfl, hy⟩, if_pos ⟨rfl, Ne.symm hy⟩]
    · have hd : ((X1 - X2 : Int) : ZMod p) ≠ 0 :=
        cast_ne_zero_of_range _ (sub_ne_zero.mpr hx) (by omega) (by omega)
      rw [Add_finite ec hP2, Add_finite ec hP2, if_neg (fun h => hx h.1),
        if_neg (fun h => hx h.1.symm), ← slopeInt_symm ec hP X1 Y1 X2 Y2 hd, add_comm X2 X1]
      have hchord : slopeInt ec X1 Y1 X2 Y2 * (X1 - X2) ≡ Y1 - Y2 [ZMOD ec.P] := by
        have h := slopeInt_chord ec hP X1 Y1 X2 Y2 hd
        rw [hP]
        exact (ZMod.intCast_eq_intCast_iff _ _ p).1 (by push_cast at h ⊢; exact h)
      have hy : (slopeInt ec X1 Y1 X2 Y2 * (X1 - (slopeInt ec X1 Y1 X2 Y2 *
            slopeInt ec X1 Y1 X2 Y2 - (X1 + X2)) % ec.P) - Y1) % ec.P
          = (slopeInt ec X1 Y1 X2 Y2 * (X2 - (slopeInt ec X1 Y1 X2 Y2 *
            slopeInt ec X1 Y1 X2 Y2 - (X1 + X2)) % ec.P) - Y2) % ec.P := by
        apply Int.ModEq.eq
        rw [Int.modEq_iff_dvd]
        have hdvd := (Int.modEq_iff_dvd.mp hchord)
        have e : ∀ u : Int, slopeInt ec X1 Y1 X2 Y2 * (X2 - u) - Y2
            - (slopeInt ec X1 Y1 X2 Y2 * (X1 - u) - Y1)
            = -(slopeInt ec X1 Y1 X2 Y2 * (X1 - X2) - (Y1 - Y2)) := by intro u; ring
        rw [e]
        have : ec.P ∣ slopeInt ec X1 Y1 X2 Y2 * (X1 - X2) - (Y1 - Y2) := by
          have := Int.ModEq.dvd hchord.symm
          exact this
        exact (Int.dvd_neg).2 this
      rw [hy]
  · rw [Add_finite ec hP2]
    split_ifs <;> exact ⟨_, rfl⟩

theorem add_comm_finite_witness :
    Nat.Prime 7 ∧
    EC.Add ⟨7, 0, 3, ⟨some 1, some 2⟩, 13⟩ ⟨some 1, some 2⟩ ⟨some 6, some 4⟩
      = EC.Add ⟨7, 0, 3, ⟨some 1, some 2⟩, 13⟩ ⟨some 6, some 4⟩ ⟨some 1, some 2⟩ :=
  ⟨by norm_num,
    (add_comm_finite 7 (by norm_num) ⟨7, 0, 3, ⟨some 1, some 2⟩, 13⟩ rfl 1 2 6 4
      (by decide) (by decide) (by decide) (by decide) (by decide) (by decide) (by decide)
      (by decide)).1⟩

end Ec
